import Mathlib

/-!
# Verification of the Finance-Tracker in-memory storage layer

A shallow embedding of the `MemStorage` class (server storage module) of the
Finance-Tracker repository, together with proofs about its backup/restore,
analytics and CRUD operations.

Modelling conventions:
* A JavaScript `Map` is modelled as an association list in insertion order
  (`JSMap`): `set` replaces in place when the key is present and appends
  otherwise, `delete` removes the entry — exactly the observable behaviour of
  a JS `Map` iterated with `values()` / `entries()`.
* JS `number` amounts are modelled as `ℚ` (exact arithmetic); `Date` values
  are modelled by their millisecond timestamp (`ℤ`).  A `Date` object is
  always truthy in JS, which the `jsOr*` helpers reflect.
* `x || d` on possibly-null/undefined fields is modelled by dedicated
  helpers that treat `none`, `some false`, `some ""` and `0` as falsy,
  exactly as JS does.
* `new Date()` calls are modelled by an explicit `now : ℤ` parameter.
* `async` methods have no concurrency in this single-threaded store; they
  are modelled as pure state-passing functions.
-/

/-- An insertion-ordered association list modelling a JavaScript `Map`. -/
abbrev JSMap (κ : Type) (α : Type) := List (κ × α)

/-- `Map.prototype.get`. -/
def JSMap.get {κ α : Type} [DecidableEq κ] : JSMap κ α → κ → Option α
  | [], _ => none
  | (k', v) :: m, k => if k' = k then some v else JSMap.get m k

/-- `Map.prototype.set`: replace in place if the key is present, else append. -/
def JSMap.set {κ α : Type} [DecidableEq κ] : JSMap κ α → κ → α → JSMap κ α
  | [], k, v => [(k, v)]
  | (k', v') :: m, k, v => if k' = k then (k, v) :: m else (k', v') :: JSMap.set m k v

/-- `Map.prototype.delete` (the state part; the returned boolean is
`(m.get k).isSome`). -/
def JSMap.erase {κ α : Type} [DecidableEq κ] (m : JSMap κ α) (k : κ) : JSMap κ α :=
  m.filter (fun p => p.1 ≠ k)

/-- `Array.from(map.values())`, in insertion order. -/
def JSMap.values {κ α : Type} (m : JSMap κ α) : List α := m.map (·.2)

/-- `Array.from(map.entries())`, in insertion order. -/
def JSMap.entriesList {κ α : Type} (m : JSMap κ α) : List (κ × α) := m

/-- The list of keys, in insertion order. -/
def JSMap.keys {κ α : Type} (m : JSMap κ α) : List κ := m.map (·.1)

/-- Erase a batch of keys (a `forEach` of `delete` calls). -/
def JSMap.eraseMany {κ α : Type} [DecidableEq κ] (m : JSMap κ α) (ks : List κ) : JSMap κ α :=
  ks.foldl JSMap.erase m

/-- JS `x || d` where `x : string | null | undefined` and `d` a string:
`null`, `undefined` and `""` are falsy. -/
def jsOrStr (x : Option String) (d : String) : String :=
  match x with
  | none => d
  | some s => if s = "" then d else s

/-- JS `x || null` where `x : string | null | undefined`: the empty string is
falsy and coalesces to `null`. -/
def jsOrNull (x : Option String) : Option String :=
  match x with
  | none => none
  | some s => if s = "" then none else some s

/-- JS `x || false` for `x : boolean | null | undefined`. -/
def jsOrFalse (x : Option Bool) : Bool := x.getD false

/-- JS `x || 0` for `x : number | null | undefined`: `0` itself is falsy but
coalesces to `0` again. -/
def jsOrZero (x : Option ℚ) : ℚ :=
  match x with
  | none => 0
  | some q => if q = 0 then 0 else q

/-- JS `x || null` for `x : Date | null | undefined`: a `Date` object is
always truthy, so the value passes through unchanged. -/
def jsOrDateNull (x : Option ℤ) : Option ℤ := x

/-- JS `Math.round` on a finite number: round half towards `+∞`. -/
def jsRound (q : ℚ) : ℤ := ⌊q + 1 / 2⌋

/-! ## Entity records (from `shared/schema.ts`)

Nullable columns (`note`, `recurring`, `categories.type`, `goals.deadline`)
are `Option`-valued; `Option.none` stands for SQL/JS `null` (and, for insert
payloads, also for an absent/`undefined` field — `||` treats both alike). -/

structure User where
  id : ℕ
  username : String
  name : String
  email : String
  password : String
  createdAt : ℤ
deriving DecidableEq

structure Notification where
  id : ℕ
  userId : ℕ
  message : String
  read : Bool
  createdAt : ℤ
deriving DecidableEq

structure Transaction where
  id : ℕ
  userId : ℕ
  amount : ℚ
  category : String
  description : String
  date : ℤ
  type : String
  recurring : Option Bool
  note : Option String
deriving DecidableEq

structure Category where
  id : ℕ
  userId : ℕ
  name : String
  type : Option String
  createdAt : ℤ
deriving DecidableEq

structure Income where
  id : ℕ
  userId : ℕ
  source : String
  amount : ℚ
  date : ℤ
  recurring : Option Bool
deriving DecidableEq

structure Budget where
  id : ℕ
  userId : ℕ
  category : String
  amount : ℚ
  period : String
deriving DecidableEq

structure Goal where
  id : ℕ
  userId : ℕ
  name : String
  targetAmount : ℚ
  currentAmount : ℚ
  deadline : Option ℤ
deriving DecidableEq

structure CategorySummary where
  category : String
  value : ℚ
  percentage : ℤ
deriving DecidableEq

structure SpendingReport where
  total : ℚ
  byCategory : JSMap String ℚ
deriving DecidableEq

/-! ## Insert payloads (`createInsertSchema(...).omit({id, ...})`)

Columns with a database default are optional in the insert schema; an
`Option` around the field models that the caller may omit it. -/

structure InsertUser where
  username : String
  name : String
  email : String
  password : String
deriving DecidableEq

structure InsertNotification where
  userId : ℕ
  message : String
  read : Option Bool
deriving DecidableEq

structure InsertTransaction where
  userId : ℕ
  amount : ℚ
  category : String
  description : String
  date : Option ℤ
  type : String
  recurring : Option Bool
  note : Option String
deriving DecidableEq

structure InsertCategory where
  userId : ℕ
  name : String
  type : Option String
deriving DecidableEq

structure InsertIncome where
  userId : ℕ
  source : String
  amount : ℚ
  date : Option ℤ
  recurring : Option Bool
deriving DecidableEq

structure InsertBudget where
  userId : ℕ
  category : String
  amount : ℚ
  period : String
deriving DecidableEq

structure InsertGoal where
  userId : ℕ
  name : String
  targetAmount : ℚ
  currentAmount : Option ℚ
  deadline : Option ℤ
deriving DecidableEq

/-! ## Partial update payloads (`Partial<T>`)

Every field, including `id` and `userId`, may be present in a
`Partial<T>` object; an outer `Option` marks presence.  The object spread
`{ ...t, ...u }` overrides exactly the present fields. -/

structure PartialTransaction where
  id : Option ℕ := none
  userId : Option ℕ := none
  amount : Option ℚ := none
  category : Option String := none
  description : Option String := none
  date : Option ℤ := none
  type : Option String := none
  recurring : Option (Option Bool) := none
  note : Option (Option String) := none
deriving DecidableEq

structure PartialIncome where
  id : Option ℕ := none
  userId : Option ℕ := none
  source : Option String := none
  amount : Option ℚ := none
  date : Option ℤ := none
  recurring : Option (Option Bool) := none
deriving DecidableEq

structure PartialBudget where
  id : Option ℕ := none
  userId : Option ℕ := none
  category : Option String := none
  amount : Option ℚ := none
  period : Option String := none
deriving DecidableEq

structure PartialGoal where
  id : Option ℕ := none
  userId : Option ℕ := none
  name : Option String := none
  targetAmount : Option ℚ := none
  currentAmount : Option ℚ := none
  deadline : Option (Option ℤ) := none
deriving DecidableEq

/-- `{ ...t, ...u }` for transactions. -/
def applyPartialTransaction (t : Transaction) (u : PartialTransaction) : Transaction :=
  { id := u.id.getD t.id
    userId := u.userId.getD t.userId
    amount := u.amount.getD t.amount
    category := u.category.getD t.category
    description := u.description.getD t.description
    date := u.date.getD t.date
    type := u.type.getD t.type
    recurring := u.recurring.getD t.recurring
    note := u.note.getD t.note }

/-- `{ ...i, ...u }` for incomes. -/
def applyPartialIncome (i : Income) (u : PartialIncome) : Income :=
  { id := u.id.getD i.id
    userId := u.userId.getD i.userId
    source := u.source.getD i.source
    amount := u.amount.getD i.amount
    date := u.date.getD i.date
    recurring := u.recurring.getD i.recurring }

/-- `{ ...b, ...u }` for budgets. -/
def applyPartialBudget (b : Budget) (u : PartialBudget) : Budget :=
  { id := u.id.getD b.id
    userId := u.userId.getD b.userId
    category := u.category.getD b.category
    amount := u.amount.getD b.amount
    period := u.period.getD b.period }

/-- `{ ...g, ...u }` for goals. -/
def applyPartialGoal (g : Goal) (u : PartialGoal) : Goal :=
  { id := u.id.getD g.id
    userId := u.userId.getD g.userId
    name := u.name.getD g.name
    targetAmount := u.targetAmount.getD g.targetAmount
    currentAmount := u.currentAmount.getD g.currentAmount
    deadline := u.deadline.getD g.deadline }

/-! ## The `MemStorage` state -/

/-- The private state of `MemStorage`: one insertion-ordered map and one
auto-increment counter per entity type. -/
structure Store where
  users : JSMap ℕ User
  notifications : JSMap ℕ Notification
  transactions : JSMap ℕ Transaction
  categories : JSMap ℕ Category
  incomes : JSMap ℕ Income
  budgets : JSMap ℕ Budget
  goals : JSMap ℕ Goal
  currentUserId : ℕ
  currentNotificationId : ℕ
  currentTransactionId : ℕ
  currentCategoryId : ℕ
  currentIncomeId : ℕ
  currentBudgetId : ℕ
  currentGoalId : ℕ
deriving DecidableEq

/-- The `MemStorage` constructor: all maps empty, all counters 1. -/
def emptyStore : Store :=
  { users := [], notifications := [], transactions := [], categories := []
    incomes := [], budgets := [], goals := []
    currentUserId := 1, currentNotificationId := 1, currentTransactionId := 1
    currentCategoryId := 1, currentIncomeId := 1, currentBudgetId := 1
    currentGoalId := 1 }

/-! ## User and notification methods -/

def Store.getUser (s : Store) (id : ℕ) : Option User := s.users.get id

def Store.getUserByUsername (s : Store) (username : String) : Option User :=
  s.users.values.find? (fun u => u.username = username)

def Store.getUserByEmail (s : Store) (email : String) : Option User :=
  s.users.values.find? (fun u => u.email = email)

def Store.createUser (s : Store) (iu : InsertUser) (now : ℤ) : User × Store :=
  let id := s.currentUserId
  let user : User := { id := id, username := iu.username, name := iu.name
                       email := iu.email, password := iu.password, createdAt := now }
  (user, { s with users := s.users.set id user, currentUserId := id + 1 })

/-- `getNotifications`: the user's notifications sorted by `createdAt`
descending (`(a, b) => b.createdAt - a.createdAt`, a stable sort). -/
def Store.getNotifications (s : Store) (userId : ℕ) : List Notification :=
  (s.notifications.values.filter (fun n => n.userId = userId)).insertionSort
    (fun a b => b.createdAt ≤ a.createdAt)

def Store.createNotification (s : Store) (inm : InsertNotification) (now : ℤ) :
    Notification × Store :=
  let id := s.currentNotificationId
  let n : Notification := { id := id, userId := inm.userId, message := inm.message
                            read := jsOrFalse inm.read, createdAt := now }
  (n, { s with notifications := s.notifications.set id n
               currentNotificationId := id + 1 })

def Store.markNotificationAsRead (s : Store) (id : ℕ) : Option Notification × Store :=
  match s.notifications.get id with
  | none => (none, s)
  | some n =>
      let n' := { n with read := true }
      (some n', { s with notifications := s.notifications.set id n' })

def Store.markAllNotificationsAsRead (s : Store) (userId : ℕ) : Store :=
  (s.getNotifications userId).foldl
    (fun st n =>
      if n.read then st
      else { st with notifications := st.notifications.set n.id { n with read := true } })
    s

/-! ## Transaction methods -/

/-- `getTransactions`: the user's transactions sorted by `date` descending
(`(a, b) => b.date - a.date`, a stable sort). -/
def Store.getTransactions (s : Store) (userId : ℕ) : List Transaction :=
  (s.transactions.values.filter (fun t => t.userId = userId)).insertionSort
    (fun a b => b.date ≤ a.date)

def Store.createTransaction (s : Store) (it : InsertTransaction) (now : ℤ) :
    Transaction × Store :=
  let id := s.currentTransactionId
  let t : Transaction := { id := id, userId := it.userId, amount := it.amount
                           category := it.category, description := it.description
                           date := it.date.getD now, type := it.type
                           recurring := some (jsOrFalse it.recurring)
                           note := jsOrNull it.note }
  (t, { s with transactions := s.transactions.set id t, currentTransactionId := id + 1 })

def Store.getTransactionById (s : Store) (id : ℕ) : Option Transaction :=
  s.transactions.get id

def Store.updateTransaction (s : Store) (id : ℕ) (u : PartialTransaction) :
    Option Transaction × Store :=
  match s.transactions.get id with
  | none => (none, s)
  | some t =>
      let t' := applyPartialTransaction t u
      (some t', { s with transactions := s.transactions.set id t' })

def Store.deleteTransaction (s : Store) (id : ℕ) : Bool × Store :=
  ((s.transactions.get id).isSome, { s with transactions := s.transactions.erase id })

/-! ## Category methods -/

/-- `getCategories`: a plain ownership filter, in map insertion order. -/
def Store.getCategories (s : Store) (userId : ℕ) : List Category :=
  s.categories.values.filter (fun c => c.userId = userId)

def Store.createCategory (s : Store) (ic : InsertCategory) (now : ℤ) :
    Category × Store :=
  let id := s.currentCategoryId
  let c : Category := { id := id, userId := ic.userId, name := ic.name
                        type := some (jsOrStr ic.type "expense"), createdAt := now }
  (c, { s with categories := s.categories.set id c, currentCategoryId := id + 1 })

def Store.getCategoryByName (s : Store) (userId : ℕ) (name : String) : Option Category :=
  s.categories.values.find?
    (fun c => c.userId == userId && c.name.toLower == name.toLower)

/-! ## Income methods -/

/-- `getIncomes`: the user's incomes sorted by `date` descending. -/
def Store.getIncomes (s : Store) (userId : ℕ) : List Income :=
  (s.incomes.values.filter (fun i => i.userId = userId)).insertionSort
    (fun a b => b.date ≤ a.date)

def Store.createIncome (s : Store) (ii : InsertIncome) (now : ℤ) : Income × Store :=
  let id := s.currentIncomeId
  let i : Income := { id := id, userId := ii.userId, source := ii.source
                      amount := ii.amount, date := ii.date.getD now
                      recurring := some (jsOrFalse ii.recurring) }
  (i, { s with incomes := s.incomes.set id i, currentIncomeId := id + 1 })

def Store.updateIncome (s : Store) (id : ℕ) (u : PartialIncome) :
    Option Income × Store :=
  match s.incomes.get id with
  | none => (none, s)
  | some i =>
      let i' := applyPartialIncome i u
      (some i', { s with incomes := s.incomes.set id i' })

def Store.deleteIncome (s : Store) (id : ℕ) : Bool × Store :=
  ((s.incomes.get id).isSome, { s with incomes := s.incomes.erase id })

/-! ## Budget methods -/

def Store.getBudgets (s : Store) (userId : ℕ) : List Budget :=
  s.budgets.values.filter (fun b => b.userId = userId)

def Store.createBudget (s : Store) (ib : InsertBudget) : Budget × Store :=
  let id := s.currentBudgetId
  let b : Budget := { id := id, userId := ib.userId, category := ib.category
                      amount := ib.amount, period := ib.period }
  (b, { s with budgets := s.budgets.set id b, currentBudgetId := id + 1 })

def Store.updateBudget (s : Store) (id : ℕ) (u : PartialBudget) :
    Option Budget × Store :=
  match s.budgets.get id with
  | none => (none, s)
  | some b =>
      let b' := applyPartialBudget b u
      (some b', { s with budgets := s.budgets.set id b' })

def Store.deleteBudget (s : Store) (id : ℕ) : Bool × Store :=
  ((s.budgets.get id).isSome, { s with budgets := s.budgets.erase id })

/-! ## Goal methods -/

def Store.getGoals (s : Store) (userId : ℕ) : List Goal :=
  s.goals.values.filter (fun g => g.userId = userId)

def Store.createGoal (s : Store) (ig : InsertGoal) : Goal × Store :=
  let id := s.currentGoalId
  let g : Goal := { id := id, userId := ig.userId, name := ig.name
                    targetAmount := ig.targetAmount
                    currentAmount := jsOrZero ig.currentAmount
                    deadline := jsOrDateNull ig.deadline }
  (g, { s with goals := s.goals.set id g, currentGoalId := id + 1 })

def Store.updateGoal (s : Store) (id : ℕ) (u : PartialGoal) :
    Option Goal × Store :=
  match s.goals.get id with
  | none => (none, s)
  | some g =>
      let g' := applyPartialGoal g u
      (some g', { s with goals := s.goals.set id g' })

def Store.deleteGoal (s : Store) (id : ℕ) : Bool × Store :=
  ((s.goals.get id).isSome, { s with goals := s.goals.erase id })

/-! ## Analytics methods -/

/-- The body of the `forEach` in `getSpendingByCategory`: update the
category → amount map and the running total. -/
def spendingStep (acc : JSMap String ℚ × ℚ) (t : Transaction) : JSMap String ℚ × ℚ :=
  (acc.1.set t.category (jsOrZero (acc.1.get t.category) + t.amount), acc.2 + t.amount)

/-- `getSpendingByCategory`: filter the user's transactions to expenses,
group amounts by category name with a running total, attach
`percentage = Math.round(value / total * 100)` (0 when the total is not
positive), and sort descending by `value`
(`(a, b) => b.value - a.value`, a stable sort). -/
def Store.getSpendingByCategory (s : Store) (userId : ℕ) : List CategorySummary :=
  let txs := s.getTransactions userId
  let expenseTransactions := txs.filter (fun t => t.type = "expense")
  let acc := expenseTransactions.foldl spendingStep ([], 0)
  let totalSpent := acc.2
  let result := acc.1.entriesList.map
    (fun p => { category := p.1, value := p.2
                percentage := if 0 < totalSpent then jsRound (p.2 / totalSpent * 100) else 0
                : CategorySummary })
  result.insertionSort (fun a b => b.value ≤ a.value)

/-- The body of the `reduce` in `getSpendingReport`. -/
def reportStep (acc : SpendingReport) (t : Transaction) : SpendingReport :=
  { total := acc.total + t.amount
    byCategory := acc.byCategory.set t.category
      (jsOrZero (acc.byCategory.get t.category) + t.amount) }

/-- `getSpendingReport`: filter to expenses and reduce into
`{ total, byCategory }`. -/
def Store.getSpendingReport (s : Store) (userId : ℕ) : SpendingReport :=
  let txs := s.getTransactions userId
  let expenseTransactions := txs.filter (fun t => t.type = "expense")
  expenseTransactions.foldl reportStep { total := 0, byCategory := [] }

/-! ## Backup and restore -/

/-- The object returned by `createBackup`. -/
structure Backup where
  transactions : List Transaction
  incomes : List Income
  budgets : List Budget
  goals : List Goal
  categories : List Category
deriving DecidableEq

/-- A restore payload.  Each of the five keys may be absent (`none`); the
rows themselves are full entity records (the shape `createBackup`
produces, which is what the claims quantify over). -/
structure RestoreData where
  transactions : Option (List Transaction) := none
  incomes : Option (List Income) := none
  budgets : Option (List Budget) := none
  goals : Option (List Goal) := none
  categories : Option (List Category) := none
deriving DecidableEq

/-- Passing a backup object as the restore payload (all five keys present). -/
def Backup.toRestoreData (b : Backup) : RestoreData :=
  { transactions := some b.transactions, incomes := some b.incomes
    budgets := some b.budgets, goals := some b.goals
    categories := some b.categories }

def Store.createBackup (s : Store) (userId : ℕ) : Backup :=
  { transactions := s.getTransactions userId
    incomes := s.getIncomes userId
    budgets := s.getBudgets userId
    goals := s.getGoals userId
    categories := s.getCategories userId }

/-- `{ ...transaction, userId }` handed to `createTransaction` during
restore.  The incoming row's `id` is dropped because `createTransaction`
overwrites `id` with the fresh counter in any case. -/
def Transaction.toInsert (t : Transaction) (userId : ℕ) : InsertTransaction :=
  { userId := userId, amount := t.amount, category := t.category
    description := t.description, date := some t.date, type := t.type
    recurring := t.recurring, note := t.note }

/-- `{ ...income, userId }` handed to `createIncome` during restore. -/
def Income.toInsert (i : Income) (userId : ℕ) : InsertIncome :=
  { userId := userId, source := i.source, amount := i.amount
    date := some i.date, recurring := i.recurring }

/-- `{ ...budget, userId }` handed to `createBudget` during restore. -/
def Budget.toInsert (b : Budget) (userId : ℕ) : InsertBudget :=
  { userId := userId, category := b.category, amount := b.amount
    period := b.period }

/-- `{ ...goal, userId }` handed to `createGoal` during restore. -/
def Goal.toInsert (g : Goal) (userId : ℕ) : InsertGoal :=
  { userId := userId, name := g.name, targetAmount := g.targetAmount
    currentAmount := some g.currentAmount, deadline := g.deadline }

/-- `{ ...category, userId }` handed to `createCategory` during restore
(the incoming `createdAt` is dropped because `createCategory` overwrites
it with `new Date()` in any case). -/
def Category.toInsert (c : Category) (userId : ℕ) : InsertCategory :=
  { userId := userId, name := c.name, type := c.type }

/-- `restoreBackup`: read the user's five collections, delete every row of
each, then re-insert from each payload array that is present (an absent
key is silently skipped).  `new Date()` during the re-inserts is modelled
by the single `now` parameter. -/
def Store.restoreBackup (s : Store) (userId : ℕ) (data : RestoreData) (now : ℤ) : Store :=
  let userTransactions := s.getTransactions userId
  let userIncomes := s.getIncomes userId
  let userBudgets := s.getBudgets userId
  let userGoals := s.getGoals userId
  let userCategories := s.getCategories userId
  let s1 : Store :=
    { s with
      transactions := s.transactions.eraseMany (userTransactions.map (·.id))
      incomes := s.incomes.eraseMany (userIncomes.map (·.id))
      budgets := s.budgets.eraseMany (userBudgets.map (·.id))
      goals := s.goals.eraseMany (userGoals.map (·.id))
      categories := s.categories.eraseMany (userCategories.map (·.id)) }
  let s2 := match data.transactions with
    | none => s1
    | some l => l.foldl (fun st t => (st.createTransaction (t.toInsert userId) now).2) s1
  let s3 := match data.incomes with
    | none => s2
    | some l => l.foldl (fun st i => (st.createIncome (i.toInsert userId) now).2) s2
  let s4 := match data.budgets with
    | none => s3
    | some l => l.foldl (fun st b => (st.createBudget (b.toInsert userId)).2) s3
  let s5 := match data.goals with
    | none => s4
    | some l => l.foldl (fun st g => (st.createGoal (g.toInsert userId)).2) s4
  let s6 := match data.categories with
    | none => s5
    | some l => l.foldl (fun st c => (st.createCategory (c.toInsert userId) now).2) s5
  s6

/-! ## Operation sequences

All state-changing `IStorage` calls, for reasoning about every reachable
store state.  Each operation that calls `new Date()` carries its own
`now`. -/

inductive Op where
  | createUser (iu : InsertUser) (now : ℤ)
  | createNotification (inm : InsertNotification) (now : ℤ)
  | markNotificationAsRead (id : ℕ)
  | markAllNotificationsAsRead (userId : ℕ)
  | createTransaction (it : InsertTransaction) (now : ℤ)
  | updateTransaction (id : ℕ) (u : PartialTransaction)
  | deleteTransaction (id : ℕ)
  | createCategory (ic : InsertCategory) (now : ℤ)
  | createIncome (ii : InsertIncome) (now : ℤ)
  | updateIncome (id : ℕ) (u : PartialIncome)
  | deleteIncome (id : ℕ)
  | createBudget (ib : InsertBudget)
  | updateBudget (id : ℕ) (u : PartialBudget)
  | deleteBudget (id : ℕ)
  | createGoal (ig : InsertGoal)
  | updateGoal (id : ℕ) (u : PartialGoal)
  | deleteGoal (id : ℕ)
  | restoreBackup (userId : ℕ) (data : RestoreData) (now : ℤ)

/-- Apply one storage operation to the state (return values dropped). -/
def Store.applyOp (s : Store) : Op → Store
  | .createUser iu now => (s.createUser iu now).2
  | .createNotification inm now => (s.createNotification inm now).2
  | .markNotificationAsRead id => (s.markNotificationAsRead id).2
  | .markAllNotificationsAsRead userId => s.markAllNotificationsAsRead userId
  | .createTransaction it now => (s.createTransaction it now).2
  | .updateTransaction id u => (s.updateTransaction id u).2
  | .deleteTransaction id => (s.deleteTransaction id).2
  | .createCategory ic now => (s.createCategory ic now).2
  | .createIncome ii now => (s.createIncome ii now).2
  | .updateIncome id u => (s.updateIncome id u).2
  | .deleteIncome id => (s.deleteIncome id).2
  | .createBudget ib => (s.createBudget ib).2
  | .updateBudget id u => (s.updateBudget id u).2
  | .deleteBudget id => (s.deleteBudget id).2
  | .createGoal ig => (s.createGoal ig).2
  | .updateGoal id u => (s.updateGoal id u).2
  | .deleteGoal id => (s.deleteGoal id).2
  | .restoreBackup userId data now => s.restoreBackup userId data now

/-- Run a sequence of storage operations from the freshly constructed
store. -/
def runOps (ops : List Op) : Store := ops.foldl Store.applyOp emptyStore

/-- A partial update that does not touch the stored `id` field.  Non-update
operations never touch it either. -/
def Op.keepsId : Op → Prop
  | .updateTransaction _ u => u.id = none
  | .updateIncome _ u => u.id = none
  | .updateBudget _ u => u.id = none
  | .updateGoal _ u => u.id = none
  | _ => True

instance : DecidablePred Op.keepsId := by
  intro op
  cases op <;> simp only [Op.keepsId] <;> infer_instance

/-! ## Store invariant: ids match keys, keys below the counter, no
duplicate keys -/

/-- All keys of the map are below the auto-increment counter. -/
def keysLt {α : Type} (m : JSMap ℕ α) (c : ℕ) : Prop := ∀ p ∈ m, p.1 < c

/-- Well-formedness of one entity map with respect to its counter:
every stored row's `id` field equals its map key, every key is below the
counter, and keys are distinct. -/
def mapInv {α : Type} (fid : α → ℕ) (m : JSMap ℕ α) (c : ℕ) : Prop :=
  (∀ p ∈ m, fid p.2 = p.1) ∧ keysLt m c ∧ m.keys.Nodup

instance {α : Type} (m : JSMap ℕ α) (c : ℕ) : Decidable (keysLt m c) := by
  unfold keysLt; infer_instance

instance {α : Type} (fid : α → ℕ) (m : JSMap ℕ α) (c : ℕ) [DecidableEq α]
    [DecidablePred fun p : ℕ × α => fid p.2 = p.1] : Decidable (mapInv fid m c) := by
  unfold mapInv; exact instDecidableAnd

/-- Well-formedness of the whole store. -/
def Store.inv (s : Store) : Prop :=
  mapInv User.id s.users s.currentUserId ∧
  mapInv Notification.id s.notifications s.currentNotificationId ∧
  mapInv Transaction.id s.transactions s.currentTransactionId ∧
  mapInv Category.id s.categories s.currentCategoryId ∧
  mapInv Income.id s.incomes s.currentIncomeId ∧
  mapInv Budget.id s.budgets s.currentBudgetId ∧
  mapInv Goal.id s.goals s.currentGoalId

instance (s : Store) : Decidable s.inv := by
  unfold Store.inv; exact instDecidableAnd

/-! ## A generic description of a run of `create*` calls

`createManyMC mk (m, c) l` performs, for each element of `l` in order, the
map/counter part of a `create` method: insert at the current counter and
increment the counter.  The per-type restore lemmas below identify the
`for ... of` loops of `restoreBackup` with instances of this function. -/

def createManyMC {α β : Type} (mk : ℕ → β → α) :
    JSMap ℕ α × ℕ → List β → JSMap ℕ α × ℕ
  | mc, [] => mc
  | (m, c), b :: l => createManyMC mk (m.set c (mk c b), c + 1) l

/-! ## The insert phases of `restoreBackup` as `createManyMC` instances -/

/-- The transaction row inserted by `createTransaction({ ...t, userId })`
when the counter is `k`. -/
def mkRestoredTransaction (u : ℕ) (k : ℕ) (t : Transaction) : Transaction :=
  { id := k, userId := u, amount := t.amount, category := t.category
    description := t.description, date := t.date, type := t.type
    recurring := some (jsOrFalse t.recurring), note := jsOrNull t.note }

/-- The income row inserted by `createIncome({ ...i, userId })`. -/
def mkRestoredIncome (u : ℕ) (k : ℕ) (i : Income) : Income :=
  { id := k, userId := u, source := i.source, amount := i.amount
    date := i.date, recurring := some (jsOrFalse i.recurring) }

/-- The budget row inserted by `createBudget({ ...b, userId })`. -/
def mkRestoredBudget (u : ℕ) (k : ℕ) (b : Budget) : Budget :=
  { id := k, userId := u, category := b.category, amount := b.amount
    period := b.period }

/-- The goal row inserted by `createGoal({ ...g, userId })`. -/
def mkRestoredGoal (u : ℕ) (k : ℕ) (g : Goal) : Goal :=
  { id := k, userId := u, name := g.name, targetAmount := g.targetAmount
    currentAmount := g.currentAmount, deadline := g.deadline }

/-- The category row inserted by `createCategory({ ...c, userId })`: its
`createdAt` is the restore-time clock, not the incoming value. -/
def mkRestoredCategory (u : ℕ) (now : ℤ) (k : ℕ) (c : Category) : Category :=
  { id := k, userId := u, name := c.name
    type := some (jsOrStr c.type "expense"), createdAt := now }

/-- One collection of `restoreBackup` after its delete and (optional)
re-insert phase, described at the map/counter level. -/
def restoredMapMC {α : Type} (mk : ℕ → α → α) (del : JSMap ℕ α) (c : ℕ) :
    Option (List α) → JSMap ℕ α × ℕ
  | none => (del, c)
  | some l => createManyMC mk (del, c) l

/-! ## Grouping lemmas for the spending aggregation -/

/-- The summed amount of the transactions of a list that belong to category
`c`. -/
def amountSum (c : String) (l : List Transaction) : ℚ :=
  ((l.filter (fun t => t.category = c)).map (·.amount)).sum

/-- The sum of the values stored in a string-keyed amount map. -/
def JSMap.sumValues (m : JSMap String ℚ) : ℚ := m.values.sum

/-! ## Sort-order instances for the three comparator-based sorts -/

instance : IsTotal Transaction (fun a b => b.date ≤ a.date) :=
  ⟨fun a b => le_total b.date a.date⟩

instance : IsTrans Transaction (fun a b => b.date ≤ a.date) :=
  ⟨fun _ _ _ h1 h2 => le_trans h2 h1⟩

instance : IsTotal Income (fun a b => b.date ≤ a.date) :=
  ⟨fun a b => le_total b.date a.date⟩

instance : IsTrans Income (fun a b => b.date ≤ a.date) :=
  ⟨fun _ _ _ h1 h2 => le_trans h2 h1⟩

instance : IsTotal CategorySummary (fun a b => b.value ≤ a.value) :=
  ⟨fun a b => le_total b.value a.value⟩

instance : IsTrans CategorySummary (fun a b => b.value ≤ a.value) :=
  ⟨fun _ _ _ h1 h2 => le_trans h2 h1⟩

/-- Within each entity type, all ids held in the store are pairwise
distinct. -/
def Store.idsDistinct (s : Store) : Prop :=
  (s.users.values.map (fun v => v.id)).Nodup ∧
  (s.notifications.values.map (fun v => v.id)).Nodup ∧
  (s.transactions.values.map (fun v => v.id)).Nodup ∧
  (s.categories.values.map (fun v => v.id)).Nodup ∧
  (s.incomes.values.map (fun v => v.id)).Nodup ∧
  (s.budgets.values.map (fun v => v.id)).Nodup ∧
  (s.goals.values.map (fun v => v.id)).Nodup

instance (s : Store) : Decidable s.idsDistinct := by
  unfold Store.idsDistinct; exact instDecidableAnd

/-- The next `create*` call of each entity type assigns an id strictly
greater than every id of that type already in the store, so successive
creates assign strictly increasing ids. -/
def Store.createIdsIncrease (s : Store) : Prop :=
  (∀ (iu : InsertUser) (now : ℤ), ∀ v ∈ s.users.values,
      v.id < ((s.createUser iu now).1).id) ∧
  (∀ (inm : InsertNotification) (now : ℤ), ∀ v ∈ s.notifications.values,
      v.id < ((s.createNotification inm now).1).id) ∧
  (∀ (it : InsertTransaction) (now : ℤ), ∀ v ∈ s.transactions.values,
      v.id < ((s.createTransaction it now).1).id) ∧
  (∀ (ic : InsertCategory) (now : ℤ), ∀ v ∈ s.categories.values,
      v.id < ((s.createCategory ic now).1).id) ∧
  (∀ (ii : InsertIncome) (now : ℤ), ∀ v ∈ s.incomes.values,
      v.id < ((s.createIncome ii now).1).id) ∧
  (∀ (ib : InsertBudget), ∀ v ∈ s.budgets.values, v.id < ((s.createBudget ib).1).id) ∧
  (∀ (ig : InsertGoal), ∀ v ∈ s.goals.values, v.id < ((s.createGoal ig).1).id)

/-- The transaction record with its id field forgotten. -/
def Transaction.stripId (t : Transaction) :
    ℕ × ℚ × String × String × ℤ × String × Option Bool × Option String :=
  (t.userId, t.amount, t.category, t.description, t.date, t.type, t.recurring, t.note)

/-- The income record with its id field forgotten. -/
def Income.stripId (i : Income) : ℕ × String × ℚ × ℤ × Option Bool :=
  (i.userId, i.source, i.amount, i.date, i.recurring)

/-- The budget record with its id field forgotten. -/
def Budget.stripId (b : Budget) : ℕ × String × ℚ × String :=
  (b.userId, b.category, b.amount, b.period)

/-- The goal record with its id field forgotten. -/
def Goal.stripId (g : Goal) : ℕ × String × ℚ × ℚ × Option ℤ :=
  (g.userId, g.name, g.targetAmount, g.currentAmount, g.deadline)

/-- The category record with its id field forgotten. -/
def Category.stripId (c : Category) : ℕ × String × Option String × ℤ :=
  (c.userId, c.name, c.type, c.createdAt)

/-- The category record with both its id and its `createdAt` forgotten. -/
def Category.stripIdDate (c : Category) : ℕ × String × Option String :=
  (c.userId, c.name, c.type)

/-- Stored rows as the store's own `create*` methods produce them: a
transaction note is never the (falsy) empty string, `recurring` flags are
never null, and a category type is a non-empty string.  Rows created
through `createTransaction` / `createIncome` / `createCategory` always
satisfy this; only a partial update that plants a falsy value can break
it. -/
def Store.normalized (s : Store) : Prop :=
  (∀ p ∈ s.transactions, p.2.recurring ≠ none ∧ p.2.note ≠ some "") ∧
  (∀ p ∈ s.incomes, p.2.recurring ≠ none) ∧
  (∀ p ∈ s.categories, p.2.type ≠ none ∧ p.2.type ≠ some "")

instance (s : Store) : Decidable s.normalized := by
  unfold Store.normalized; exact instDecidableAnd

/-! ## Basic `JSMap` lemmas -/

@[simp] theorem JSMap.keys_nil {κ α : Type} : JSMap.keys ([] : JSMap κ α) = [] := rfl

@[simp] theorem JSMap.keys_cons {κ α : Type} (p : κ × α) (m : JSMap κ α) :
    JSMap.keys (p :: m) = p.1 :: m.keys := rfl

@[simp] theorem JSMap.values_nil {κ α : Type} : JSMap.values ([] : JSMap κ α) = [] := rfl

@[simp] theorem JSMap.values_cons {κ α : Type} (p : κ × α) (m : JSMap κ α) :
    JSMap.values (p :: m) = p.2 :: m.values := rfl

@[simp] theorem JSMap.values_append {κ α : Type} (m m' : JSMap κ α) :
    JSMap.values (m ++ m') = m.values ++ m'.values := List.map_append ..

@[simp] theorem JSMap.get_nil {κ α : Type} [DecidableEq κ] (k : κ) :
    JSMap.get ([] : JSMap κ α) k = none := rfl

theorem JSMap.get_cons {κ α : Type} [DecidableEq κ] (k' : κ) (v : α) (m : JSMap κ α)
    (k : κ) : JSMap.get ((k', v) :: m) k = if k' = k then some v else m.get k := rfl

theorem JSMap.set_cons {κ α : Type} [DecidableEq κ] (k' : κ) (v' : α) (m : JSMap κ α)
    (k : κ) (v : α) :
    JSMap.set ((k', v') :: m) k v =
      if k' = k then (k, v) :: m else (k', v') :: m.set k v := rfl

theorem JSMap.keys_mem_of_mem {κ α : Type} {m : JSMap κ α} {p : κ × α}
    (h : p ∈ m) : p.1 ∈ m.keys := List.mem_map_of_mem _ h

theorem JSMap.get_eq_none_iff {κ α : Type} [DecidableEq κ] (m : JSMap κ α) (k : κ) :
    m.get k = none ↔ k ∉ m.keys := by
  induction m with
  | nil => simp
  | cons p m ih =>
      obtain ⟨k', v⟩ := p
      by_cases h : k' = k
      · subst h
        simp [JSMap.get_cons]
      · have h' : ¬ k = k' := fun hh => h hh.symm
        simp [JSMap.get_cons, h, h', ih]

theorem JSMap.mem_of_get_eq_some {κ α : Type} [DecidableEq κ] {m : JSMap κ α} {k : κ}
    {v : α} (h : m.get k = some v) : (k, v) ∈ m := by
  induction m with
  | nil => simp at h
  | cons p m ih =>
      obtain ⟨k', v'⟩ := p
      by_cases hk : k' = k
      · subst hk
        rw [JSMap.get_cons, if_pos rfl] at h
        obtain rfl : v' = v := by injection h
        exact List.mem_cons_self ..
      · rw [JSMap.get_cons, if_neg hk] at h
        exact List.mem_cons_of_mem _ (ih h)

theorem JSMap.set_eq_append {κ α : Type} [DecidableEq κ] {m : JSMap κ α} {k : κ} (v : α)
    (h : k ∉ m.keys) : m.set k v = m ++ [(k, v)] := by
  induction m with
  | nil => rfl
  | cons p m ih =>
      obtain ⟨k', v'⟩ := p
      simp only [JSMap.keys_cons, List.mem_cons] at h
      push_neg at h
      rw [JSMap.set_cons, if_neg (fun hh => h.1 hh.symm), ih h.2]
      rfl

theorem JSMap.mem_set {κ α : Type} [DecidableEq κ] {m : JSMap κ α} {k : κ} {v : α}
    {p : κ × α} (h : p ∈ m.set k v) : p ∈ m ∨ p = (k, v) := by
  induction m with
  | nil => simp [JSMap.set] at h; simp [h]
  | cons q m ih =>
      obtain ⟨k', v'⟩ := q
      by_cases hk : k' = k
      · rw [JSMap.set_cons, if_pos hk] at h
        rcases List.mem_cons.mp h with h | h
        · right; exact h
        · left; exact List.mem_cons_of_mem _ h
      · rw [JSMap.set_cons, if_neg hk] at h
        rcases List.mem_cons.mp h with h | h
        · left; exact h ▸ List.mem_cons_self ..
        · rcases ih h with h | h
          · left; exact List.mem_cons_of_mem _ h
          · right; exact h

theorem JSMap.keys_set_of_mem {κ α : Type} [DecidableEq κ] {m : JSMap κ α} {k : κ}
    (v : α) (h : k ∈ m.keys) : (m.set k v).keys = m.keys := by
  induction m with
  | nil => simp at h
  | cons q m ih =>
      obtain ⟨k', v'⟩ := q
      by_cases hk : k' = k
      · rw [JSMap.set_cons, if_pos hk]
        simp [hk]
      · rw [JSMap.set_cons, if_neg hk]
        simp only [JSMap.keys_cons, List.mem_cons] at h
        rcases h with h | h
        · exact absurd h.symm hk
        · simp [ih h]

theorem JSMap.mem_keys_set {κ α : Type} [DecidableEq κ] (m : JSMap κ α) (k : κ) (v : α)
    (k' : κ) : k' ∈ (m.set k v).keys ↔ k' ∈ m.keys ∨ k' = k := by
  induction m with
  | nil =>
      show k' ∈ JSMap.keys [(k, v)] ↔ _
      simp [or_comm]
  | cons q m ih =>
      obtain ⟨k'', v''⟩ := q
      by_cases hk : k'' = k
      · rw [JSMap.set_cons, if_pos hk]
        subst hk
        simp only [JSMap.keys_cons, List.mem_cons, ih]
        tauto
      · rw [JSMap.set_cons, if_neg hk]
        simp only [JSMap.keys_cons, List.mem_cons, ih]
        tauto

theorem JSMap.get_set_self {κ α : Type} [DecidableEq κ] (m : JSMap κ α) (k : κ) (v : α) :
    (m.set k v).get k = some v := by
  induction m with
  | nil => simp [JSMap.set, JSMap.get_cons]
  | cons q m ih =>
      obtain ⟨k', v'⟩ := q
      by_cases hk : k' = k
      · rw [JSMap.set_cons, if_pos hk, JSMap.get_cons, if_pos rfl]
      · rw [JSMap.set_cons, if_neg hk, JSMap.get_cons, if_neg hk]
        exact ih

theorem JSMap.get_set_ne {κ α : Type} [DecidableEq κ] (m : JSMap κ α) (k : κ) (v : α)
    (k' : κ) (h : k ≠ k') : (m.set k v).get k' = m.get k' := by
  induction m with
  | nil => simp [JSMap.set, JSMap.get_cons, h]
  | cons q m ih =>
      obtain ⟨k'', v''⟩ := q
      by_cases hk : k'' = k
      · rw [JSMap.set_cons, if_pos hk, JSMap.get_cons, if_neg h, JSMap.get_cons,
          if_neg (hk ▸ h)]
      · rw [JSMap.set_cons, if_neg hk, JSMap.get_cons, JSMap.get_cons]
        by_cases hk' : k'' = k' <;> simp [hk', ih]

theorem JSMap.get_eq_some_of_mem {κ α : Type} [DecidableEq κ] {m : JSMap κ α}
    (hnd : m.keys.Nodup) {k : κ} {v : α} (hmem : (k, v) ∈ m) : m.get k = some v := by
  induction m with
  | nil => simp at hmem
  | cons q m ih =>
      obtain ⟨k', v'⟩ := q
      simp only [JSMap.keys_cons, List.nodup_cons] at hnd
      rcases List.mem_cons.mp hmem with h | h
      · obtain ⟨rfl, rfl⟩ := Prod.mk.injEq .. ▸ h
        rw [JSMap.get_cons, if_pos rfl]
      · have hk : k' ≠ k := by
          rintro rfl
          exact hnd.1 (JSMap.keys_mem_of_mem h)
        rw [JSMap.get_cons, if_neg hk]
        exact ih hnd.2 h

theorem JSMap.erase_eq_filter {κ α : Type} [DecidableEq κ] (m : JSMap κ α) (k : κ) :
    m.erase k = m.filter (fun p => p.1 ≠ k) := rfl

theorem JSMap.eraseMany_eq_filter {κ α : Type} [DecidableEq κ] (m : JSMap κ α)
    (ks : List κ) : m.eraseMany ks = m.filter (fun p => p.1 ∉ ks) := by
  induction ks generalizing m with
  | nil => simp [JSMap.eraseMany]
  | cons k ks ih =>
      show (m.erase k).eraseMany ks = _
      rw [ih, JSMap.erase_eq_filter, List.filter_filter]
      congr 1
      funext p
      by_cases h1 : p.1 = k <;> by_cases h2 : p.1 ∈ ks <;> simp [h1, h2]

theorem keysLt_mono {α : Type} {m : JSMap ℕ α} {c c' : ℕ} (h : keysLt m c)
    (hc : c ≤ c') : keysLt m c' := fun p hp => lt_of_lt_of_le (h p hp) hc

theorem keysLt_notMemKeys {α : Type} {m : JSMap ℕ α} {c : ℕ} (h : keysLt m c) :
    c ∉ m.keys := by
  intro hc
  obtain ⟨p, hp, hpk⟩ := List.mem_map.mp hc
  exact absurd (hpk ▸ h p hp) (lt_irrefl c)

/-- Creating a row at the current counter and bumping the counter
preserves the map invariant. -/
theorem mapInv_set_fresh {α : Type} {fid : α → ℕ} {m : JSMap ℕ α} {c : ℕ}
    (hinv : mapInv fid m c) {v : α} (hv : fid v = c) :
    mapInv fid (m.set c v) (c + 1) := by
  obtain ⟨hid, hlt, hnd⟩ := hinv
  have hfresh : c ∉ m.keys := keysLt_notMemKeys hlt
  rw [JSMap.set_eq_append v hfresh]
  refine ⟨?_, ?_, ?_⟩
  · intro p hp
    rcases List.mem_append.mp hp with h | h
    · exact hid p h
    · simp at h
      simp [h, hv]
  · intro p hp
    rcases List.mem_append.mp hp with h | h
    · exact lt_of_lt_of_le (hlt p h) (Nat.le_succ c)
    · simp at h
      simp [h]
  · show (JSMap.keys (m ++ [(c, v)])).Nodup
    have : JSMap.keys (m ++ [(c, v)]) = m.keys ++ [c] := List.map_append ..
    rw [this, ← List.concat_eq_append]
    exact hnd.concat hfresh

/-- Overwriting a row at a key already below the counter, with a value
whose `id` equals that key, preserves the map invariant. -/
theorem mapInv_set_existing {α : Type} {fid : α → ℕ} {m : JSMap ℕ α} {c : ℕ}
    (hinv : mapInv fid m c) {k : ℕ} {v : α} (hv : fid v = k) (hk : k < c) :
    mapInv fid (m.set k v) c := by
  obtain ⟨hid, hlt, hnd⟩ := hinv
  refine ⟨?_, ?_, ?_⟩
  · intro p hp
    rcases JSMap.mem_set hp with h | h
    · exact hid p h
    · simp [h, hv]
  · intro p hp
    rcases JSMap.mem_set hp with h | h
    · exact hlt p h
    · simp [h, hk]
  · by_cases hmem : k ∈ m.keys
    · rw [JSMap.keys_set_of_mem v hmem]
      exact hnd
    · rw [JSMap.set_eq_append v hmem]
      have : JSMap.keys (m ++ [(k, v)]) = m.keys ++ [k] := List.map_append ..
      rw [this, ← List.concat_eq_append]
      exact hnd.concat hmem

/-- Deleting a key preserves the map invariant. -/
theorem mapInv_erase {α : Type} {fid : α → ℕ} {m : JSMap ℕ α} {c : ℕ}
    (hinv : mapInv fid m c) (k : ℕ) : mapInv fid (m.erase k) c := by
  obtain ⟨hid, hlt, hnd⟩ := hinv
  refine ⟨fun p hp => hid p (List.mem_of_mem_filter hp),
          fun p hp => hlt p (List.mem_of_mem_filter hp), ?_⟩
  have hsub : (JSMap.keys (m.erase k)).Sublist m.keys := by
    rw [JSMap.erase_eq_filter]
    exact (List.filter_sublist m).map (·.1)
  exact hnd.sublist hsub

theorem mapInv_eraseMany {α : Type} {fid : α → ℕ} {m : JSMap ℕ α} {c : ℕ}
    (hinv : mapInv fid m c) (ks : List ℕ) : mapInv fid (m.eraseMany ks) c := by
  induction ks generalizing m with
  | nil => exact hinv
  | cons k ks ih => exact ih (mapInv_erase hinv k)

theorem createManyMC_counter_le {α β : Type} (mk : ℕ → β → α) (m : JSMap ℕ α) (c : ℕ)
    (l : List β) : c ≤ (createManyMC mk (m, c) l).2 := by
  induction l generalizing m c with
  | nil => exact le_refl c
  | cons b l ih => exact le_trans (Nat.le_succ c) (ih _ _)

theorem createManyMC_mapInv {α β : Type} {fid : α → ℕ} (mk : ℕ → β → α)
    (hmk : ∀ k b, fid (mk k b) = k) {m : JSMap ℕ α} {c : ℕ}
    (hinv : mapInv fid m c) (l : List β) :
    mapInv fid (createManyMC mk (m, c) l).1 (createManyMC mk (m, c) l).2 := by
  induction l generalizing m c with
  | nil => exact hinv
  | cons b l ih => exact ih (mapInv_set_fresh hinv (hmk c b))

theorem createManyMC_keep {α β : Type} (mk : ℕ → β → α) {m : JSMap ℕ α} {c : ℕ}
    (hlt : keysLt m c) (l : List β) {p : ℕ × α} (hp : p ∈ m) :
    p ∈ (createManyMC mk (m, c) l).1 := by
  induction l generalizing m c with
  | nil => exact hp
  | cons b l ih =>
      have hfresh : c ∉ m.keys := keysLt_notMemKeys hlt
      refine ih (m := m.set c (mk c b)) (c := c + 1) ?_ ?_
      · rw [JSMap.set_eq_append _ hfresh]
        intro q hq
        rcases List.mem_append.mp hq with h | h
        · exact lt_of_lt_of_le (hlt q h) (Nat.le_succ c)
        · simp at h
          simp [h]
      · rw [JSMap.set_eq_append _ hfresh]
        exact List.mem_append_left _ hp

theorem createManyMC_mem {α β : Type} (mk : ℕ → β → α) {m : JSMap ℕ α} {c : ℕ}
    (hlt : keysLt m c) (l : List β) {p : ℕ × α}
    (hp : p ∈ (createManyMC mk (m, c) l).1) :
    p ∈ m ∨ (c ≤ p.1 ∧ ∃ b ∈ l, p = (p.1, mk p.1 b)) := by
  induction l generalizing m c with
  | nil => exact Or.inl hp
  | cons b l ih =>
      have hfresh : c ∉ m.keys := keysLt_notMemKeys hlt
      have hlt' : keysLt (m.set c (mk c b)) (c + 1) := by
        rw [JSMap.set_eq_append _ hfresh]
        intro q hq
        rcases List.mem_append.mp hq with h | h
        · exact lt_of_lt_of_le (hlt q h) (Nat.le_succ c)
        · simp at h
          simp [h]
      rcases ih hlt' hp with h | h
      · rw [JSMap.set_eq_append _ hfresh] at h
        rcases List.mem_append.mp h with h | h
        · exact Or.inl h
        · simp at h
          refine Or.inr ⟨?_, b, List.mem_cons_self .., ?_⟩ <;> simp [h]
      · exact Or.inr ⟨le_trans (Nat.le_succ c) h.1,
          h.2.elim (fun b' hb' => ⟨b', List.mem_cons_of_mem _ hb'.1, hb'.2⟩)⟩

theorem createManyMC_values_map {α β γ : Type} (mk : ℕ → β → α) (f : α → γ)
    (g : β → γ) (hfg : ∀ k b, f (mk k b) = g b) {m : JSMap ℕ α} {c : ℕ}
    (hlt : keysLt m c) (l : List β) :
    (createManyMC mk (m, c) l).1.values.map f = m.values.map f ++ l.map g := by
  induction l generalizing m c with
  | nil => simp [createManyMC]
  | cons b l ih =>
      have hfresh : c ∉ m.keys := keysLt_notMemKeys hlt
      have hlt' : keysLt (m.set c (mk c b)) (c + 1) := by
        rw [JSMap.set_eq_append _ hfresh]
        intro q hq
        rcases List.mem_append.mp hq with h | h
        · exact lt_of_lt_of_le (hlt q h) (Nat.le_succ c)
        · simp at h
          simp [h]
      show (createManyMC mk (m.set c (mk c b), c + 1) l).1.values.map f = _
      rw [ih hlt', JSMap.set_eq_append _ hfresh]
      simp [hfg]

/-! ## Membership in the `get*` lists -/

theorem jsOrZero_some (q : ℚ) : jsOrZero (some q) = q := by
  by_cases h : q = 0 <;> simp [jsOrZero, h]

theorem mem_getTransactions (s : Store) (u : ℕ) (t : Transaction) :
    t ∈ s.getTransactions u ↔ t ∈ s.transactions.values ∧ t.userId = u := by
  simp [Store.getTransactions, List.mem_filter]

theorem mem_getIncomes (s : Store) (u : ℕ) (i : Income) :
    i ∈ s.getIncomes u ↔ i ∈ s.incomes.values ∧ i.userId = u := by
  simp [Store.getIncomes, List.mem_filter]

theorem mem_getBudgets (s : Store) (u : ℕ) (b : Budget) :
    b ∈ s.getBudgets u ↔ b ∈ s.budgets.values ∧ b.userId = u := by
  simp [Store.getBudgets, List.mem_filter]

theorem mem_getGoals (s : Store) (u : ℕ) (g : Goal) :
    g ∈ s.getGoals u ↔ g ∈ s.goals.values ∧ g.userId = u := by
  simp [Store.getGoals, List.mem_filter]

theorem mem_getCategories (s : Store) (u : ℕ) (c : Category) :
    c ∈ s.getCategories u ↔ c ∈ s.categories.values ∧ c.userId = u := by
  simp [Store.getCategories, List.mem_filter]

theorem mem_getNotifications (s : Store) (u : ℕ) (n : Notification) :
    n ∈ s.getNotifications u ↔ n ∈ s.notifications.values ∧ n.userId = u := by
  simp [Store.getNotifications, List.mem_filter]

/-! ## The delete phase of `restoreBackup` -/

theorem mem_unique_of_nodup_keys {α : Type} {m : JSMap ℕ α} (hnd : m.keys.Nodup)
    {p q : ℕ × α} (hp : p ∈ m) (hq : q ∈ m) (hk : p.1 = q.1) : p = q := by
  have h1 : m.get p.1 = some p.2 := JSMap.get_eq_some_of_mem hnd hp
  have h2 : m.get q.1 = some q.2 := JSMap.get_eq_some_of_mem hnd hq
  rw [hk, h2] at h1
  have h3 : q.2 = p.2 := by injection h1
  exact Prod.ext hk h3.symm

/-- Deleting, row by row, the ids of exactly the rows owned by `u` removes
from a well-formed map precisely the entries owned by `u`. -/
theorem eraseMany_userRows {α : Type} (fid fown : α → ℕ) {m : JSMap ℕ α} {c : ℕ}
    (hinv : mapInv fid m c) (u : ℕ) (l : List α)
    (hl : ∀ v, v ∈ l ↔ v ∈ m.values ∧ fown v = u) :
    m.eraseMany (l.map fid) = m.filter (fun p => fown p.2 ≠ u) := by
  obtain ⟨hid, _, hnd⟩ := hinv
  rw [JSMap.eraseMany_eq_filter]
  apply List.filter_congr
  intro p hp
  simp only [decide_eq_decide, List.mem_map]
  constructor
  · intro hnotin hu
    exact hnotin ⟨p.2, (hl p.2).mpr ⟨List.mem_map_of_mem _ hp, hu⟩, hid p hp⟩
  · rintro hne ⟨v, hv, hfid⟩
    obtain ⟨hvmem, hvu⟩ := (hl v).mp hv
    obtain ⟨q, hq, hq2⟩ := List.mem_map.mp hvmem
    have : q = p := mem_unique_of_nodup_keys hnd hq hp (by rw [← hid q hq, hq2, hfid])
    exact hne (by rw [← hq2, this] at hvu; exact hvu)

theorem createTransaction_toInsert (s : Store) (t : Transaction) (u : ℕ) (now : ℤ) :
    (s.createTransaction (t.toInsert u) now).2 =
      { s with
        transactions := s.transactions.set s.currentTransactionId
          (mkRestoredTransaction u s.currentTransactionId t)
        currentTransactionId := s.currentTransactionId + 1 } := rfl

theorem createIncome_toInsert (s : Store) (i : Income) (u : ℕ) (now : ℤ) :
    (s.createIncome (i.toInsert u) now).2 =
      { s with
        incomes := s.incomes.set s.currentIncomeId
          (mkRestoredIncome u s.currentIncomeId i)
        currentIncomeId := s.currentIncomeId + 1 } := rfl

theorem createBudget_toInsert (s : Store) (b : Budget) (u : ℕ) :
    (s.createBudget (b.toInsert u)).2 =
      { s with
        budgets := s.budgets.set s.currentBudgetId
          (mkRestoredBudget u s.currentBudgetId b)
        currentBudgetId := s.currentBudgetId + 1 } := rfl

theorem createGoal_toInsert (s : Store) (g : Goal) (u : ℕ) :
    (s.createGoal (g.toInsert u)).2 =
      { s with
        goals := s.goals.set s.currentGoalId (mkRestoredGoal u s.currentGoalId g)
        currentGoalId := s.currentGoalId + 1 } := by
  simp only [Store.createGoal, Goal.toInsert, jsOrZero_some, jsOrDateNull, mkRestoredGoal]

theorem createCategory_toInsert (s : Store) (c : Category) (u : ℕ) (now : ℤ) :
    (s.createCategory (c.toInsert u) now).2 =
      { s with
        categories := s.categories.set s.currentCategoryId
          (mkRestoredCategory u now s.currentCategoryId c)
        currentCategoryId := s.currentCategoryId + 1 } := rfl

theorem restoreTxFold_eq (u : ℕ) (now : ℤ) (l : List Transaction) (s : Store) :
    l.foldl (fun st t => (st.createTransaction (t.toInsert u) now).2) s =
      { s with
        transactions :=
          (createManyMC (mkRestoredTransaction u) (s.transactions, s.currentTransactionId) l).1
        currentTransactionId :=
          (createManyMC (mkRestoredTransaction u) (s.transactions, s.currentTransactionId) l).2 } := by
  induction l generalizing s with
  | nil => rfl
  | cons t l ih =>
      rw [List.foldl_cons, ih]
      rfl

theorem restoreIncomeFold_eq (u : ℕ) (now : ℤ) (l : List Income) (s : Store) :
    l.foldl (fun st i => (st.createIncome (i.toInsert u) now).2) s =
      { s with
        incomes := (createManyMC (mkRestoredIncome u) (s.incomes, s.currentIncomeId) l).1
        currentIncomeId :=
          (createManyMC (mkRestoredIncome u) (s.incomes, s.currentIncomeId) l).2 } := by
  induction l generalizing s with
  | nil => rfl
  | cons i l ih =>
      rw [List.foldl_cons, ih]
      rfl

theorem restoreBudgetFold_eq (u : ℕ) (l : List Budget) (s : Store) :
    l.foldl (fun st b => (st.createBudget (b.toInsert u)).2) s =
      { s with
        budgets := (createManyMC (mkRestoredBudget u) (s.budgets, s.currentBudgetId) l).1
        currentBudgetId :=
          (createManyMC (mkRestoredBudget u) (s.budgets, s.currentBudgetId) l).2 } := by
  induction l generalizing s with
  | nil => rfl
  | cons b l ih =>
      rw [List.foldl_cons, ih]
      rfl

theorem restoreGoalFold_eq (u : ℕ) (l : List Goal) (s : Store) :
    l.foldl (fun st g => (st.createGoal (g.toInsert u)).2) s =
      { s with
        goals := (createManyMC (mkRestoredGoal u) (s.goals, s.currentGoalId) l).1
        currentGoalId :=
          (createManyMC (mkRestoredGoal u) (s.goals, s.currentGoalId) l).2 } := by
  induction l generalizing s with
  | nil => rfl
  | cons g l ih =>
      rw [List.foldl_cons, createGoal_toInsert, ih]
      rfl

theorem restoreCategoryFold_eq (u : ℕ) (now : ℤ) (l : List Category) (s : Store) :
    l.foldl (fun st c => (st.createCategory (c.toInsert u) now).2) s =
      { s with
        categories :=
          (createManyMC (mkRestoredCategory u now) (s.categories, s.currentCategoryId) l).1
        currentCategoryId :=
          (createManyMC (mkRestoredCategory u now) (s.categories, s.currentCategoryId) l).2 } := by
  induction l generalizing s with
  | nil => rfl
  | cons c l ih =>
      rw [List.foldl_cons, ih]
      rfl

/-- `restoreBackup`, fully decomposed: each of the five collections is the
old map with the user's rows batch-deleted, then re-populated from the
payload array when that key is present.  Users and notifications are
untouched. -/
theorem restoreBackup_eq (s : Store) (u : ℕ) (data : RestoreData) (now : ℤ) :
    s.restoreBackup u data now =
      { s with
        transactions :=
          (restoredMapMC (mkRestoredTransaction u)
            (s.transactions.eraseMany ((s.getTransactions u).map (·.id)))
            s.currentTransactionId data.transactions).1
        currentTransactionId :=
          (restoredMapMC (mkRestoredTransaction u)
            (s.transactions.eraseMany ((s.getTransactions u).map (·.id)))
            s.currentTransactionId data.transactions).2
        incomes :=
          (restoredMapMC (mkRestoredIncome u)
            (s.incomes.eraseMany ((s.getIncomes u).map (·.id)))
            s.currentIncomeId data.incomes).1
        currentIncomeId :=
          (restoredMapMC (mkRestoredIncome u)
            (s.incomes.eraseMany ((s.getIncomes u).map (·.id)))
            s.currentIncomeId data.incomes).2
        budgets :=
          (restoredMapMC (mkRestoredBudget u)
            (s.budgets.eraseMany ((s.getBudgets u).map (·.id)))
            s.currentBudgetId data.budgets).1
        currentBudgetId :=
          (restoredMapMC (mkRestoredBudget u)
            (s.budgets.eraseMany ((s.getBudgets u).map (·.id)))
            s.currentBudgetId data.budgets).2
        goals :=
          (restoredMapMC (mkRestoredGoal u)
            (s.goals.eraseMany ((s.getGoals u).map (·.id)))
            s.currentGoalId data.goals).1
        currentGoalId :=
          (restoredMapMC (mkRestoredGoal u)
            (s.goals.eraseMany ((s.getGoals u).map (·.id)))
            s.currentGoalId data.goals).2
        categories :=
          (restoredMapMC (mkRestoredCategory u now)
            (s.categories.eraseMany ((s.getCategories u).map (·.id)))
            s.currentCategoryId data.categories).1
        currentCategoryId :=
          (restoredMapMC (mkRestoredCategory u now)
            (s.categories.eraseMany ((s.getCategories u).map (·.id)))
            s.currentCategoryId data.categories).2 } := by
  obtain ⟨dtx, dinc, dbud, dgoal, dcat⟩ := data
  cases dtx <;> cases dinc <;> cases dbud <;> cases dgoal <;> cases dcat <;>
    simp only [Store.restoreBackup, restoreTxFold_eq, restoreIncomeFold_eq,
      restoreBudgetFold_eq, restoreGoalFold_eq, restoreCategoryFold_eq,
      restoredMapMC]

theorem amountSum_cons (c : String) (t : Transaction) (l : List Transaction) :
    amountSum c (t :: l) =
      (if t.category = c then t.amount else 0) + amountSum c l := by
  by_cases h : t.category = c <;> simp [amountSum, h]

theorem sumValues_set_add (m : JSMap String ℚ) (k : String) (a : ℚ) :
    JSMap.sumValues (m.set k (jsOrZero (m.get k) + a)) = m.sumValues + a := by
  induction m with
  | nil => simp [JSMap.set, JSMap.sumValues, jsOrZero]
  | cons p m ih =>
      obtain ⟨k', v'⟩ := p
      by_cases h : k' = k
      · subst h
        rw [JSMap.get_cons, if_pos rfl, JSMap.set_cons, if_pos rfl]
        simp [JSMap.sumValues, jsOrZero_some]
        ring
      · rw [JSMap.get_cons, if_neg h, JSMap.set_cons, if_neg h]
        simp only [JSMap.sumValues, JSMap.values_cons, List.sum_cons] at *
        rw [ih]
        ring

theorem spendingStep_fold_total (l : List Transaction) (m : JSMap String ℚ) (q : ℚ) :
    (l.foldl spendingStep (m, q)).2 = q + (l.map (·.amount)).sum := by
  induction l generalizing m q with
  | nil => simp
  | cons t l ih =>
      show (l.foldl spendingStep (spendingStep (m, q) t)).2 = _
      rw [spendingStep, ih]
      simp
      ring

theorem spendingStep_fold_sumValues (l : List Transaction) (m : JSMap String ℚ)
    (q : ℚ) :
    (l.foldl spendingStep (m, q)).1.sumValues = m.sumValues + (l.map (·.amount)).sum := by
  induction l generalizing m q with
  | nil => simp
  | cons t l ih =>
      show (l.foldl spendingStep (spendingStep (m, q) t)).1.sumValues = _
      rw [spendingStep, ih, sumValues_set_add]
      simp
      ring

theorem spendingStep_fold_mem_keys (l : List Transaction) (m : JSMap String ℚ)
    (q : ℚ) (c : String) :
    c ∈ (l.foldl spendingStep (m, q)).1.keys ↔
      c ∈ m.keys ∨ c ∈ l.map (·.category) := by
  induction l generalizing m q with
  | nil => simp
  | cons t l ih =>
      show c ∈ (l.foldl spendingStep (spendingStep (m, q) t)).1.keys ↔ _
      rw [spendingStep, ih]
      simp [JSMap.mem_keys_set]
      tauto

theorem spendingStep_fold_nodup_keys (l : List Transaction) (m : JSMap String ℚ)
    (q : ℚ) (hnd : m.keys.Nodup) : (l.foldl spendingStep (m, q)).1.keys.Nodup := by
  induction l generalizing m q with
  | nil => exact hnd
  | cons t l ih =>
      show (l.foldl spendingStep (spendingStep (m, q) t)).1.keys.Nodup
      rw [spendingStep]
      apply ih
      by_cases h : t.category ∈ m.keys
      · rw [JSMap.keys_set_of_mem _ h]
        exact hnd
      · rw [JSMap.set_eq_append _ h]
        have : JSMap.keys (m ++ [(t.category, jsOrZero (m.get t.category) + t.amount)]) =
            m.keys ++ [t.category] := List.map_append ..
        rw [this, ← List.concat_eq_append]
        exact hnd.concat h

theorem spendingStep_fold_get (l : List Transaction) (m : JSMap String ℚ) (q : ℚ)
    (c : String) :
    (l.foldl spendingStep (m, q)).1.get c =
      match m.get c with
      | some v => some (v + amountSum c l)
      | none => if c ∈ l.map (·.category) then some (amountSum c l) else none := by
  induction l generalizing m q with
  | nil => cases hm : m.get c <;> simp [amountSum, hm]
  | cons t l ih =>
      show (l.foldl spendingStep (spendingStep (m, q) t)).1.get c = _
      rw [spendingStep, ih]
      by_cases hc : t.category = c
      · subst hc
        rw [JSMap.get_set_self]
        cases hm : m.get t.category with
        | none =>
            simp [jsOrZero, amountSum_cons, hm]
        | some v =>
            simp [jsOrZero_some, amountSum_cons, hm]
            ring
      · rw [JSMap.get_set_ne _ _ _ _ hc]
        cases hm : m.get c with
        | none =>
            have h' : ¬ c = t.category := fun hh => hc hh.symm
            simp [amountSum_cons, hm, hc, h']
        | some v =>
            simp [amountSum_cons, hm, hc]

/-! ## Rounding error bounds -/

theorem jsRound_sub_le (x : ℚ) : |((jsRound x : ℤ) : ℚ) - x| ≤ 1 / 2 := by
  have h1 : ((⌊x + 1 / 2⌋ : ℤ) : ℚ) ≤ x + 1 / 2 := Int.floor_le _
  have h2 : x + 1 / 2 - 1 < ((⌊x + 1 / 2⌋ : ℤ) : ℚ) := Int.sub_one_lt_floor _
  rw [jsRound, abs_le]
  constructor <;> linarith

theorem sum_jsRound_bound (l : List ℚ) :
    |(l.map (fun w => ((jsRound w : ℤ) : ℚ))).sum - l.sum| ≤ (l.length : ℚ) / 2 := by
  induction l with
  | nil => simp
  | cons w l ih =>
      simp only [List.map_cons, List.sum_cons, List.length_cons]
      have h := jsRound_sub_le w
      have key : ((jsRound w : ℤ) : ℚ) + (l.map (fun w => ((jsRound w : ℤ) : ℚ))).sum -
          (w + l.sum) =
          (((jsRound w : ℤ) : ℚ) - w) +
            ((l.map (fun w => ((jsRound w : ℤ) : ℚ))).sum - l.sum) := by ring
      rw [key]
      have habs := abs_add (((jsRound w : ℤ) : ℚ) - w)
        ((l.map (fun w => ((jsRound w : ℤ) : ℚ))).sum - l.sum)
      push_cast
      have : ((l.length : ℚ) + 1) / 2 = 1 / 2 + (l.length : ℚ) / 2 := by ring
      rw [this]
      exact le_trans habs (add_le_add h ih)

theorem sum_div_mul (l : List ℚ) (T : ℚ) :
    (l.map (fun v => v / T * 100)).sum = l.sum / T * 100 := by
  induction l with
  | nil => simp
  | cons v l ih =>
      simp only [List.map_cons, List.sum_cons, ih]
      ring

theorem percentages_near_100 (l : List ℚ) (T : ℚ) (hT : 0 < T) (hsum : l.sum = T) :
    |(l.map (fun v => ((jsRound (v / T * 100) : ℤ) : ℚ))).sum - 100| ≤
      (l.length : ℚ) / 2 := by
  have hmap : l.map (fun v => ((jsRound (v / T * 100) : ℤ) : ℚ)) =
      (l.map (fun v => v / T * 100)).map (fun w => ((jsRound w : ℤ) : ℚ)) := by
    rw [List.map_map]
    rfl
  have h1 := sum_jsRound_bound (l.map (fun v => v / T * 100))
  rw [sum_div_mul, hsum, div_self (ne_of_gt hT), one_mul, List.length_map] at h1
  rw [hmap]
  exact h1

/-- The `reduce` of `getSpendingReport` computes the same map and total as
the `forEach` of `getSpendingByCategory`. -/
theorem reportStep_fold_eq (l : List Transaction) (r : SpendingReport) :
    l.foldl reportStep r =
      { total := (l.foldl spendingStep (r.byCategory, r.total)).2
        byCategory := (l.foldl spendingStep (r.byCategory, r.total)).1 } := by
  induction l generalizing r with
  | nil => rfl
  | cons t l ih =>
      rw [List.foldl_cons, ih]
      rfl

/-- C4: for every user and every set of expense transactions, the values of
`byCategory` in `getSpendingReport(userId)` sum to `total`. -/
theorem getSpendingReport_byCategory_sums_to_total (s : Store) (u : ℕ) :
    JSMap.sumValues (s.getSpendingReport u).byCategory = (s.getSpendingReport u).total := by
  simp only [Store.getSpendingReport, reportStep_fold_eq]
  rw [spendingStep_fold_sumValues, spendingStep_fold_total]
  simp [JSMap.sumValues]

/-- C9: updating a transaction, income, budget or goal at an id that is not
present in the corresponding map returns `undefined` and leaves the entire
store state unchanged. -/
theorem update_missing_id_noop (s : Store) (id : ℕ)
    (ut : PartialTransaction) (ui : PartialIncome) (ub : PartialBudget)
    (ug : PartialGoal) :
    (s.transactions.get id = none → s.updateTransaction id ut = (none, s)) ∧
    (s.incomes.get id = none → s.updateIncome id ui = (none, s)) ∧
    (s.budgets.get id = none → s.updateBudget id ub = (none, s)) ∧
    (s.goals.get id = none → s.updateGoal id ug = (none, s)) := by
  refine ⟨fun h => ?_, fun h => ?_, fun h => ?_, fun h => ?_⟩ <;>
    simp [Store.updateTransaction, Store.updateIncome, Store.updateBudget,
      Store.updateGoal, h]

/-- Witness for C9 at a concrete store and id. -/
theorem update_missing_id_noop_witness :
    emptyStore.updateTransaction 5 {} = (none, emptyStore) ∧
    emptyStore.updateIncome 5 {} = (none, emptyStore) ∧
    emptyStore.updateBudget 5 {} = (none, emptyStore) ∧
    emptyStore.updateGoal 5 {} = (none, emptyStore) := by
  obtain ⟨h1, h2, h3, h4⟩ := update_missing_id_noop emptyStore 5 {} {} {} {}
  exact ⟨h1 rfl, h2 rfl, h3 rfl, h4 rfl⟩

/-- After deleting a user's rows, an ownership filter for that user finds
nothing. -/
theorem values_filter_after_delete {α : Type} (m : JSMap ℕ α) (f : α → ℕ) (u : ℕ) :
    (JSMap.values (m.filter (fun p => f p.2 ≠ u))).filter (fun v => f v = u) = [] := by
  rw [List.filter_eq_nil_iff]
  intro v hv
  obtain ⟨p, hp, hpv⟩ := List.mem_map.mp hv
  have h := List.of_mem_filter hp
  simp only [ne_eq, decide_not, Bool.not_eq_true', decide_eq_false_iff_not] at h
  simp [← hpv, h]

/-- C2: restoring with one of the five collection keys absent deletes every
row of that entity type owned by the user and inserts none, leaving the
user's collection of that type empty (the other four collections are
processed as usual, and no error is raised — the model is total). -/
theorem restore_absent_key_clears (s : Store) (u : ℕ) (data : RestoreData) (now : ℤ)
    (hinv : s.inv) :
    (data.transactions = none →
      (s.restoreBackup u data now).transactions =
        s.transactions.filter (fun p => p.2.userId ≠ u) ∧
      (s.restoreBackup u data now).getTransactions u = []) ∧
    (data.incomes = none →
      (s.restoreBackup u data now).incomes =
        s.incomes.filter (fun p => p.2.userId ≠ u) ∧
      (s.restoreBackup u data now).getIncomes u = []) ∧
    (data.budgets = none →
      (s.restoreBackup u data now).budgets =
        s.budgets.filter (fun p => p.2.userId ≠ u) ∧
      (s.restoreBackup u data now).getBudgets u = []) ∧
    (data.goals = none →
      (s.restoreBackup u data now).goals =
        s.goals.filter (fun p => p.2.userId ≠ u) ∧
      (s.restoreBackup u data now).getGoals u = []) ∧
    (data.categories = none →
      (s.restoreBackup u data now).categories =
        s.categories.filter (fun p => p.2.userId ≠ u) ∧
      (s.restoreBackup u data now).getCategories u = []) := by
  obtain ⟨hu, hn, htx, hcat, hinc, hbud, hgoal⟩ := hinv
  have hdelTx : s.transactions.eraseMany ((s.getTransactions u).map (·.id)) =
      s.transactions.filter (fun p => p.2.userId ≠ u) :=
    eraseMany_userRows _ (fun t => t.userId) htx u _ (mem_getTransactions s u)
  have hdelInc : s.incomes.eraseMany ((s.getIncomes u).map (·.id)) =
      s.incomes.filter (fun p => p.2.userId ≠ u) :=
    eraseMany_userRows _ (fun i => i.userId) hinc u _ (mem_getIncomes s u)
  have hdelBud : s.budgets.eraseMany ((s.getBudgets u).map (·.id)) =
      s.budgets.filter (fun p => p.2.userId ≠ u) :=
    eraseMany_userRows _ (fun b => b.userId) hbud u _ (mem_getBudgets s u)
  have hdelGoal : s.goals.eraseMany ((s.getGoals u).map (·.id)) =
      s.goals.filter (fun p => p.2.userId ≠ u) :=
    eraseMany_userRows _ (fun g => g.userId) hgoal u _ (mem_getGoals s u)
  have hdelCat : s.categories.eraseMany ((s.getCategories u).map (·.id)) =
      s.categories.filter (fun p => p.2.userId ≠ u) :=
    eraseMany_userRows _ (fun c => c.userId) hcat u _ (mem_getCategories s u)
  refine ⟨fun h => ?_, fun h => ?_, fun h => ?_, fun h => ?_, fun h => ?_⟩ <;>
    rw [restoreBackup_eq] <;>
    simp only [h, restoredMapMC, hdelTx, hdelInc, hdelBud, hdelGoal, hdelCat,
      true_and, and_true]
  · show ((JSMap.values _).filter _).insertionSort _ = _
    rw [values_filter_after_delete]
    rfl
  · show ((JSMap.values _).filter _).insertionSort _ = _
    rw [values_filter_after_delete]
    rfl
  · exact values_filter_after_delete ..
  · exact values_filter_after_delete ..
  · exact values_filter_after_delete ..

/-- Witness for C2: a concrete store and payload with all five keys
absent. -/
theorem restore_absent_key_clears_witness :
    (({ emptyStore with
       transactions :=
         [(1, { id := 1, userId := 7, amount := 5, category := "food"
                description := "d", date := 0, type := "expense"
                recurring := some false, note := none })]
       currentTransactionId := 2 } : Store).restoreBackup 7 {} 0).getTransactions 7 = [] := by
  have h := restore_absent_key_clears
    ({ emptyStore with
       transactions :=
         [(1, { id := 1, userId := 7, amount := 5, category := "food"
                description := "d", date := 0, type := "expense"
                recurring := some false, note := none })]
       currentTransactionId := 2 } : Store) 7 {} 0 (by decide)
  exact (h.1 rfl).2

theorem restoredMapMC_keep {α : Type} (mk : ℕ → α → α) {del : JSMap ℕ α} {c : ℕ}
    (hlt : keysLt del c) (pay : Option (List α)) {p : ℕ × α} (hp : p ∈ del) :
    p ∈ (restoredMapMC mk del c pay).1 := by
  cases pay with
  | none => exact hp
  | some l => exact createManyMC_keep mk hlt l hp

/-- C10: `restoreBackup(u, data)` keeps every row of the five collections
that is owned by a different user, under its original key and unmodified,
and leaves the users and notifications collections entirely unchanged. -/
theorem restore_frames_other_users (s : Store) (u : ℕ) (data : RestoreData) (now : ℤ)
    (hinv : s.inv) :
    (∀ p ∈ s.transactions, p.2.userId ≠ u →
        p ∈ (s.restoreBackup u data now).transactions) ∧
    (∀ p ∈ s.incomes, p.2.userId ≠ u → p ∈ (s.restoreBackup u data now).incomes) ∧
    (∀ p ∈ s.budgets, p.2.userId ≠ u → p ∈ (s.restoreBackup u data now).budgets) ∧
    (∀ p ∈ s.goals, p.2.userId ≠ u → p ∈ (s.restoreBackup u data now).goals) ∧
    (∀ p ∈ s.categories, p.2.userId ≠ u →
        p ∈ (s.restoreBackup u data now).categories) ∧
    (s.restoreBackup u data now).users = s.users ∧
    (s.restoreBackup u data now).notifications = s.notifications := by
  obtain ⟨hu, hn, htx, hcat, hinc, hbud, hgoal⟩ := hinv
  have hdelTx : s.transactions.eraseMany ((s.getTransactions u).map (·.id)) =
      s.transactions.filter (fun p => p.2.userId ≠ u) :=
    eraseMany_userRows _ (fun t => t.userId) htx u _ (mem_getTransactions s u)
  have hdelInc : s.incomes.eraseMany ((s.getIncomes u).map (·.id)) =
      s.incomes.filter (fun p => p.2.userId ≠ u) :=
    eraseMany_userRows _ (fun i => i.userId) hinc u _ (mem_getIncomes s u)
  have hdelBud : s.budgets.eraseMany ((s.getBudgets u).map (·.id)) =
      s.budgets.filter (fun p => p.2.userId ≠ u) :=
    eraseMany_userRows _ (fun b => b.userId) hbud u _ (mem_getBudgets s u)
  have hdelGoal : s.goals.eraseMany ((s.getGoals u).map (·.id)) =
      s.goals.filter (fun p => p.2.userId ≠ u) :=
    eraseMany_userRows _ (fun g => g.userId) hgoal u _ (mem_getGoals s u)
  have hdelCat : s.categories.eraseMany ((s.getCategories u).map (·.id)) =
      s.categories.filter (fun p => p.2.userId ≠ u) :=
    eraseMany_userRows _ (fun c => c.userId) hcat u _ (mem_getCategories s u)
  rw [restoreBackup_eq]
  refine ⟨?_, ?_, ?_, ?_, ?_, rfl, rfl⟩ <;>
    intro p hp hne <;>
    simp only [hdelTx, hdelInc, hdelBud, hdelGoal, hdelCat]
  · exact restoredMapMC_keep _
      (fun q hq => htx.2.1 q (List.mem_of_mem_filter hq)) _
      (List.mem_filter.mpr ⟨hp, by simpa using hne⟩)
  · exact restoredMapMC_keep _
      (fun q hq => hinc.2.1 q (List.mem_of_mem_filter hq)) _
      (List.mem_filter.mpr ⟨hp, by simpa using hne⟩)
  · exact restoredMapMC_keep _
      (fun q hq => hbud.2.1 q (List.mem_of_mem_filter hq)) _
      (List.mem_filter.mpr ⟨hp, by simpa using hne⟩)
  · exact restoredMapMC_keep _
      (fun q hq => hgoal.2.1 q (List.mem_of_mem_filter hq)) _
      (List.mem_filter.mpr ⟨hp, by simpa using hne⟩)
  · exact restoredMapMC_keep _
      (fun q hq => hcat.2.1 q (List.mem_of_mem_filter hq)) _
      (List.mem_filter.mpr ⟨hp, by simpa using hne⟩)

/-- Witness for C10 at a concrete store: user 2's transaction survives a
restore by user 1, and users/notifications are untouched. -/
theorem restore_frames_other_users_witness :
    (1, ({ id := 1, userId := 2, amount := 3, category := "c"
           description := "d", date := 0, type := "expense"
           recurring := some false, note := none } : Transaction)) ∈
      (({ emptyStore with
          transactions :=
            [(1, { id := 1, userId := 2, amount := 3, category := "c"
                   description := "d", date := 0, type := "expense"
                   recurring := some false, note := none })]
          currentTransactionId := 2 } : Store).restoreBackup 1 {} 0).transactions := by
  have h := restore_frames_other_users
    ({ emptyStore with
       transactions :=
         [(1, { id := 1, userId := 2, amount := 3, category := "c"
                description := "d", date := 0, type := "expense"
                recurring := some false, note := none })]
       currentTransactionId := 2 } : Store) 1 {} 0 (by decide)
  exact h.1 _ (by simp) (by decide)

theorem restoredMapMC_mem {α : Type} (mk : ℕ → α → α) {del : JSMap ℕ α} {c : ℕ}
    (hlt : keysLt del c) (pay : Option (List α)) {p : ℕ × α}
    (hp : p ∈ (restoredMapMC mk del c pay).1) :
    p ∈ del ∨ (c ≤ p.1 ∧ ∃ l, pay = some l ∧ ∃ b ∈ l, p = (p.1, mk p.1 b)) := by
  cases pay with
  | none => exact Or.inl hp
  | some l =>
      rcases createManyMC_mem mk hlt l hp with h | h
      · exact Or.inl h
      · exact Or.inr ⟨h.1, l, rfl, h.2⟩

/-- C7: every row present after `restoreBackup(u, data)` is either an
untouched row of another user, or a row inserted by the restore, whose
`userId` is the caller's `u` (whatever userId the incoming item carried)
and whose `id` is a fresh store-assigned id — it equals its map key and is
at least the pre-restore counter, hence distinct from every pre-existing
id of that entity type. -/
theorem restore_rows_owned_and_fresh (s : Store) (u : ℕ) (data : RestoreData)
    (now : ℤ) (hinv : s.inv) :
    (∀ p ∈ (s.restoreBackup u data now).transactions,
        (p ∈ s.transactions ∧ p.2.userId ≠ u) ∨
        (p.2.userId = u ∧ p.2.id = p.1 ∧ s.currentTransactionId ≤ p.1)) ∧
    (∀ p ∈ (s.restoreBackup u data now).incomes,
        (p ∈ s.incomes ∧ p.2.userId ≠ u) ∨
        (p.2.userId = u ∧ p.2.id = p.1 ∧ s.currentIncomeId ≤ p.1)) ∧
    (∀ p ∈ (s.restoreBackup u data now).budgets,
        (p ∈ s.budgets ∧ p.2.userId ≠ u) ∨
        (p.2.userId = u ∧ p.2.id = p.1 ∧ s.currentBudgetId ≤ p.1)) ∧
    (∀ p ∈ (s.restoreBackup u data now).goals,
        (p ∈ s.goals ∧ p.2.userId ≠ u) ∨
        (p.2.userId = u ∧ p.2.id = p.1 ∧ s.currentGoalId ≤ p.1)) ∧
    (∀ p ∈ (s.restoreBackup u data now).categories,
        (p ∈ s.categories ∧ p.2.userId ≠ u) ∨
        (p.2.userId = u ∧ p.2.id = p.1 ∧ s.currentCategoryId ≤ p.1)) := by
  obtain ⟨hu, hn, htx, hcat, hinc, hbud, hgoal⟩ := hinv
  have hdelTx : s.transactions.eraseMany ((s.getTransactions u).map (·.id)) =
      s.transactions.filter (fun p => p.2.userId ≠ u) :=
    eraseMany_userRows _ (fun t => t.userId) htx u _ (mem_getTransactions s u)
  have hdelInc : s.incomes.eraseMany ((s.getIncomes u).map (·.id)) =
      s.incomes.filter (fun p => p.2.userId ≠ u) :=
    eraseMany_userRows _ (fun i => i.userId) hinc u _ (mem_getIncomes s u)
  have hdelBud : s.budgets.eraseMany ((s.getBudgets u).map (·.id)) =
      s.budgets.filter (fun p => p.2.userId ≠ u) :=
    eraseMany_userRows _ (fun b => b.userId) hbud u _ (mem_getBudgets s u)
  have hdelGoal : s.goals.eraseMany ((s.getGoals u).map (·.id)) =
      s.goals.filter (fun p => p.2.userId ≠ u) :=
    eraseMany_userRows _ (fun g => g.userId) hgoal u _ (mem_getGoals s u)
  have hdelCat : s.categories.eraseMany ((s.getCategories u).map (·.id)) =
      s.categories.filter (fun p => p.2.userId ≠ u) :=
    eraseMany_userRows _ (fun c => c.userId) hcat u _ (mem_getCategories s u)
  rw [restoreBackup_eq]
  simp only [hdelTx, hdelInc, hdelBud, hdelGoal, hdelCat]
  refine ⟨?_, ?_, ?_, ?_, ?_⟩ <;> intro p hp
  · rcases restoredMapMC_mem _
        (fun q hq => htx.2.1 q (List.mem_of_mem_filter hq)) _ hp with h | h
    · refine Or.inl ⟨List.mem_of_mem_filter h, ?_⟩
      have := List.of_mem_filter h
      simpa using this
    · obtain ⟨hc, l, _, b, _, hpe⟩ := h
      exact Or.inr ⟨by rw [hpe]; rfl, by rw [hpe]; rfl, hc⟩
  · rcases restoredMapMC_mem _
        (fun q hq => hinc.2.1 q (List.mem_of_mem_filter hq)) _ hp with h | h
    · refine Or.inl ⟨List.mem_of_mem_filter h, ?_⟩
      have := List.of_mem_filter h
      simpa using this
    · obtain ⟨hc, l, _, b, _, hpe⟩ := h
      exact Or.inr ⟨by rw [hpe]; rfl, by rw [hpe]; rfl, hc⟩
  · rcases restoredMapMC_mem _
        (fun q hq => hbud.2.1 q (List.mem_of_mem_filter hq)) _ hp with h | h
    · refine Or.inl ⟨List.mem_of_mem_filter h, ?_⟩
      have := List.of_mem_filter h
      simpa using this
    · obtain ⟨hc, l, _, b, _, hpe⟩ := h
      exact Or.inr ⟨by rw [hpe]; rfl, by rw [hpe]; rfl, hc⟩
  · rcases restoredMapMC_mem _
        (fun q hq => hgoal.2.1 q (List.mem_of_mem_filter hq)) _ hp with h | h
    · refine Or.inl ⟨List.mem_of_mem_filter h, ?_⟩
      have := List.of_mem_filter h
      simpa using this
    · obtain ⟨hc, l, _, b, _, hpe⟩ := h
      exact Or.inr ⟨by rw [hpe]; rfl, by rw [hpe]; rfl, hc⟩
  · rcases restoredMapMC_mem _
        (fun q hq => hcat.2.1 q (List.mem_of_mem_filter hq)) _ hp with h | h
    · refine Or.inl ⟨List.mem_of_mem_filter h, ?_⟩
      have := List.of_mem_filter h
      simpa using this
    · obtain ⟨hc, l, _, b, _, hpe⟩ := h
      exact Or.inr ⟨by rw [hpe]; rfl, by rw [hpe]; rfl, hc⟩

/-- Witness for C7: a restore payload whose transaction carries a foreign
userId (99) and a stale id (42) is inserted for the caller (user 1) with
the fresh id 1. -/
theorem restore_rows_owned_and_fresh_witness :
    ((1, ({ id := 1, userId := 1, amount := 3, category := "c"
            description := "d", date := 0, type := "expense"
            recurring := some false, note := none } : Transaction)) ∈
        emptyStore.transactions ∧ (1 : ℕ) ≠ 1) ∨
    ((1 : ℕ) = 1 ∧ (1 : ℕ) = 1 ∧ emptyStore.currentTransactionId ≤ 1) := by
  have h := (restore_rows_owned_and_fresh emptyStore 1
    { transactions :=
        some [{ id := 42, userId := 99, amount := 3, category := "c"
                description := "d", date := 0, type := "expense"
                recurring := some false, note := none }] } 0 (by decide)).1
    (1, { id := 1, userId := 1, amount := 3, category := "c"
          description := "d", date := 0, type := "expense"
          recurring := some false, note := none }) (by decide)
  exact h

/-- C5 counterexample: with two transactions of user 1 inserted in order of
ascending date, the backup's transactions array is the date-descending
sort, not the map's insertion order. -/
theorem createBackup_insertion_order_counterexample :
    ¬ ((({ emptyStore with
           transactions :=
             [(1, { id := 1, userId := 1, amount := 1, category := "a"
                    description := "d", date := 0, type := "expense"
                    recurring := some false, note := none }),
              (2, { id := 2, userId := 1, amount := 2, category := "b"
                    description := "d", date := 5, type := "expense"
                    recurring := some false, note := none })]
           currentTransactionId := 3 } : Store).createBackup 1).transactions =
        (JSMap.values
          ({ emptyStore with
             transactions :=
               [(1, { id := 1, userId := 1, amount := 1, category := "a"
                      description := "d", date := 0, type := "expense"
                      recurring := some false, note := none }),
                (2, { id := 2, userId := 1, amount := 2, category := "b"
                      description := "d", date := 5, type := "expense"
                      recurring := some false, note := none })]
             currentTransactionId := 3 } : Store).transactions).filter
          (fun t => t.userId = 1)) := by
  decide

/-- C5 (amended): `createBackup(userId)` returns five arrays containing
exactly the rows owned by that user; budgets, goals and categories are in
the map's insertion order, while transactions and incomes are sorted by
date descending (a stable sort of the insertion-order rows). -/
theorem createBackup_spec (s : Store) (u : ℕ) :
    (s.createBackup u).transactions.Perm
        ((JSMap.values s.transactions).filter (fun t => t.userId = u)) ∧
    List.Sorted (fun a b : Transaction => b.date ≤ a.date)
        (s.createBackup u).transactions ∧
    (s.createBackup u).incomes.Perm
        ((JSMap.values s.incomes).filter (fun i => i.userId = u)) ∧
    List.Sorted (fun a b : Income => b.date ≤ a.date) (s.createBackup u).incomes ∧
    (s.createBackup u).budgets =
        (JSMap.values s.budgets).filter (fun b => b.userId = u) ∧
    (s.createBackup u).goals =
        (JSMap.values s.goals).filter (fun g => g.userId = u) ∧
    (s.createBackup u).categories =
        (JSMap.values s.categories).filter (fun c => c.userId = u) :=
  ⟨List.perm_insertionSort _ _, List.sorted_insertionSort _ _,
   List.perm_insertionSort _ _, List.sorted_insertionSort _ _, rfl, rfl, rfl⟩

/-- C6: `getSpendingByCategory(userId)` considers only the user's expense
transactions, returns exactly one record per distinct category name, each
record's `value` being the summed amounts of that category, its
`percentage` being `Math.round(value / total * 100)` (0 unless the total
is positive), and the list is sorted descending by `value`. -/
theorem getSpendingByCategory_spec (s : Store) (u : ℕ) :
    ((s.getSpendingByCategory u).map (fun r => r.category)).Nodup ∧
    (∀ c : String,
        c ∈ (s.getSpendingByCategory u).map (fun r => r.category) ↔
        c ∈ ((s.getTransactions u).filter (fun t => t.type = "expense")).map
              (fun t => t.category)) ∧
    (∀ r ∈ s.getSpendingByCategory u,
        r.value = amountSum r.category
            ((s.getTransactions u).filter (fun t => t.type = "expense")) ∧
        r.percentage =
          (if 0 < (((s.getTransactions u).filter (fun t => t.type = "expense")).map
                     (fun t => t.amount)).sum
           then jsRound (r.value /
                  (((s.getTransactions u).filter (fun t => t.type = "expense")).map
                    (fun t => t.amount)).sum * 100)
           else 0)) ∧
    List.Sorted (fun a b : CategorySummary => b.value ≤ a.value)
        (s.getSpendingByCategory u) := by
  set l := (s.getTransactions u).filter (fun t => t.type = "expense") with hl
  have hT : (l.foldl spendingStep ([], 0)).2 = (l.map (fun t => t.amount)).sum := by
    rw [spendingStep_fold_total]
    ring
  set entries := (l.foldl spendingStep ([], 0)).1 with hentries
  have hnd : entries.keys.Nodup := spendingStep_fold_nodup_keys l [] 0 (by simp)
  have hres : s.getSpendingByCategory u =
      (entries.entriesList.map (fun p =>
        { category := p.1, value := p.2
          percentage :=
            if 0 < (l.foldl spendingStep ([], 0)).2
            then jsRound (p.2 / (l.foldl spendingStep ([], 0)).2 * 100) else 0
          : CategorySummary })).insertionSort (fun a b => b.value ≤ a.value) := rfl
  have hperm := List.perm_insertionSort (fun a b : CategorySummary => b.value ≤ a.value)
    (entries.entriesList.map (fun p =>
      { category := p.1, value := p.2
        percentage :=
          if 0 < (l.foldl spendingStep ([], 0)).2
          then jsRound (p.2 / (l.foldl spendingStep ([], 0)).2 * 100) else 0
        : CategorySummary }))
  refine ⟨?_, ?_, ?_, ?_⟩
  · rw [hres]
    have := (hperm.map (fun r : CategorySummary => r.category)).nodup_iff
    rw [this, List.map_map]
    show (entries.entriesList.map (fun p => p.1)).Nodup
    exact hnd
  · intro c
    rw [hres]
    rw [(hperm.map (fun r : CategorySummary => r.category)).mem_iff, List.map_map]
    show c ∈ entries.entriesList.map (fun p => p.1) ↔ _
    have := spendingStep_fold_mem_keys l [] 0 c
    simp only [← hentries] at this
    simpa [JSMap.keys] using this
  · intro r hr
    rw [hres] at hr
    rw [List.mem_insertionSort] at hr
    obtain ⟨p, hp, hpr⟩ := List.mem_map.mp hr
    have hget : entries.get p.1 = some p.2 :=
      JSMap.get_eq_some_of_mem hnd hp
    have hgetc := spendingStep_fold_get l [] 0 p.1
    simp only [← hentries, JSMap.get_nil] at hgetc
    rw [hgetc] at hget
    by_cases hcmem : p.1 ∈ l.map (fun t => t.category)
    · rw [if_pos hcmem] at hget
      have hval : p.2 = amountSum p.1 l := by injection hget with h; exact h.symm
      constructor
      · rw [← hpr]
        simpa using hval
      · rw [← hpr]
        show (if 0 < (l.foldl spendingStep ([], 0)).2
              then jsRound (p.2 / (l.foldl spendingStep ([], 0)).2 * 100) else 0) = _
        rw [hT]
    · rw [if_neg hcmem] at hget
      exact absurd hget (by simp)
  · rw [hres]
    exact List.sorted_insertionSort _ _

theorem jsOrZero_eq_getD (x : Option ℚ) : jsOrZero x = x.getD 0 := by
  cases x with
  | none => rfl
  | some q => simp [jsOrZero_some]

/-- C3 counterexample: four expense transactions of amounts 1, 1, 1 and 5
in four distinct categories give percentages 13, 13, 13 and 63 (the three
12.5s round up), summing to 102 — off from 100 by 2, not by at most 1. -/
theorem spending_percent_sum_counterexample :
    ¬ (|((({ emptyStore with
             transactions :=
               [(1, { id := 1, userId := 1, amount := 1, category := "c1"
                      description := "d", date := 0, type := "expense"
                      recurring := some false, note := none }),
                (2, { id := 2, userId := 1, amount := 1, category := "c2"
                      description := "d", date := 0, type := "expense"
                      recurring := some false, note := none }),
                (3, { id := 3, userId := 1, amount := 1, category := "c3"
                      description := "d", date := 0, type := "expense"
                      recurring := some false, note := none }),
                (4, { id := 4, userId := 1, amount := 5, category := "c4"
                      description := "d", date := 0, type := "expense"
                      recurring := some false, note := none })]
             currentTransactionId := 5 } : Store).getSpendingByCategory 1).map
            (fun r => r.percentage)).sum - 100| ≤ 1) := by
  intro h
  have hsum : ((({ emptyStore with
             transactions :=
               [(1, { id := 1, userId := 1, amount := 1, category := "c1"
                      description := "d", date := 0, type := "expense"
                      recurring := some false, note := none }),
                (2, { id := 2, userId := 1, amount := 1, category := "c2"
                      description := "d", date := 0, type := "expense"
                      recurring := some false, note := none }),
                (3, { id := 3, userId := 1, amount := 1, category := "c3"
                      description := "d", date := 0, type := "expense"
                      recurring := some false, note := none }),
                (4, { id := 4, userId := 1, amount := 5, category := "c4"
                      description := "d", date := 0, type := "expense"
                      recurring := some false, note := none })]
             currentTransactionId := 5 } : Store).getSpendingByCategory 1).map
          (fun r => r.percentage)).sum = 102 := by
    simp [emptyStore, Store.getSpendingByCategory, Store.getTransactions,
      JSMap.values, JSMap.entriesList, spendingStep, JSMap.set, JSMap.get,
      jsOrZero_eq_getD, jsRound, List.insertionSort, List.orderedInsert,
      List.foldl, List.filter, List.map, List.sum]
    norm_num
  rw [hsum] at h
  exact absurd h (by decide)

theorem spending_percent_sum_core (l : List Transaction)

    (hpos : ∀ t ∈ l, 0 < t.amount) (hne : l ≠ []) :
    |((((l.foldl spendingStep ([], 0)).1.entriesList.map (fun p =>
        ({ category := p.1, value := p.2
           percentage := if 0 < (l.foldl spendingStep ([], 0)).2
             then jsRound (p.2 / (l.foldl spendingStep ([], 0)).2 * 100)
             else 0 } : CategorySummary))).insertionSort
        (fun a b => b.value ≤ a.value)).map (fun r => (r.percentage : ℚ))).sum - 100| ≤
      (((((l.foldl spendingStep ([], 0)).1.entriesList.map (fun p =>
        ({ category := p.1, value := p.2
           percentage := if 0 < (l.foldl spendingStep ([], 0)).2
             then jsRound (p.2 / (l.foldl spendingStep ([], 0)).2 * 100)
             else 0 } : CategorySummary))).insertionSort
        (fun a b => b.value ≤ a.value)).length : ℚ)) / 2 := by
  have hT : (l.foldl spendingStep ([], 0)).2 = (l.map (fun t => t.amount)).sum := by
    rw [spendingStep_fold_total]
    ring
  have hTpos : 0 < (l.foldl spendingStep ([], 0)).2 := by
    rw [hT]
    apply List.sum_pos
    · intro a ha
      obtain ⟨t, ht, rfl⟩ := List.mem_map.mp ha
      exact hpos t ht
    · simpa using hne
  have hsumv : ((l.foldl spendingStep ([], 0)).1.entriesList.map (fun p => p.2)).sum =
      (l.foldl spendingStep ([], 0)).2 := by
    have h2 := spendingStep_fold_sumValues l [] 0
    simp only [JSMap.sumValues, JSMap.values] at h2
    rw [hT]
    simpa using h2
  have hperm := List.perm_insertionSort (fun a b : CategorySummary => b.value ≤ a.value)
    ((l.foldl spendingStep ([], 0)).1.entriesList.map (fun p =>
      ({ category := p.1, value := p.2
         percentage := if 0 < (l.foldl spendingStep ([], 0)).2
           then jsRound (p.2 / (l.foldl spendingStep ([], 0)).2 * 100)
           else 0 } : CategorySummary)))
  rw [(hperm.map (fun r : CategorySummary => (r.percentage : ℚ))).sum_eq,
    hperm.length_eq, List.map_map, List.length_map]
  have hmap : (l.foldl spendingStep ([], 0)).1.entriesList.map
      ((fun r : CategorySummary => (r.percentage : ℚ)) ∘ (fun p =>
        ({ category := p.1, value := p.2
           percentage := if 0 < (l.foldl spendingStep ([], 0)).2
             then jsRound (p.2 / (l.foldl spendingStep ([], 0)).2 * 100)
             else 0 } : CategorySummary))) =
      ((l.foldl spendingStep ([], 0)).1.entriesList.map (fun p => p.2)).map
        (fun v => ((jsRound (v / (l.foldl spendingStep ([], 0)).2 * 100) : ℤ) : ℚ)) := by
    rw [List.map_map]
    apply List.map_congr_left
    intro p _
    simp [Function.comp, if_pos hTpos]
  rw [hmap]
  have hlen : ((l.foldl spendingStep ([], 0)).1.entriesList.map (fun p => p.2)).length =
      (l.foldl spendingStep ([], 0)).1.entriesList.length := List.length_map ..
  rw [← hlen]
  exact percentages_near_100 _ _ hTpos hsumv

/-- C3 (amended): for a user with a non-empty set of expense transactions
all of positive amount, the percentages returned by
`getSpendingByCategory` sum to within `k / 2` of 100, where `k` is the
number of returned records (each of the `k` independent roundings may
contribute up to 1/2 of error; a fixed bound of 1 is impossible). -/
theorem spending_percent_sum_bound (s : Store) (u : ℕ)
    (hpos : ∀ t ∈ (s.getTransactions u).filter (fun t => t.type = "expense"),
      0 < t.amount)
    (hne : (s.getTransactions u).filter (fun t => t.type = "expense") ≠ []) :
    |((s.getSpendingByCategory u).map (fun r => (r.percentage : ℚ))).sum - 100| ≤
      ((s.getSpendingByCategory u).length : ℚ) / 2 :=
  spending_percent_sum_core _ hpos hne

/-- Witness for C3 (amended) at the spec's own worked example: expenses 50
and 30 on food and 20 on transport give percentages 80 and 20, summing to
exactly 100, within `2 / 2` of 100. -/
theorem spending_percent_sum_bound_witness :
    |((({ emptyStore with
          transactions :=
            [(1, { id := 1, userId := 1, amount := 50, category := "food"
                   description := "d", date := 0, type := "expense"
                   recurring := some false, note := none }),
             (2, { id := 2, userId := 1, amount := 30, category := "food"
                   description := "d", date := 0, type := "expense"
                   recurring := some false, note := none }),
             (3, { id := 3, userId := 1, amount := 20, category := "transport"
                   description := "d", date := 0, type := "expense"
                   recurring := some false, note := none })]
          currentTransactionId := 4 } : Store).getSpendingByCategory 1).map
        (fun r => (r.percentage : ℚ))).sum - 100| ≤
      ((({ emptyStore with
           transactions :=
             [(1, { id := 1, userId := 1, amount := 50, category := "food"
                    description := "d", date := 0, type := "expense"
                    recurring := some false, note := none }),
              (2, { id := 2, userId := 1, amount := 30, category := "food"
                    description := "d", date := 0, type := "expense"
                    recurring := some false, note := none }),
              (3, { id := 3, userId := 1, amount := 20, category := "transport"
                    description := "d", date := 0, type := "expense"
                    recurring := some false, note := none })]
           currentTransactionId := 4 } : Store).getSpendingByCategory 1).length : ℚ) / 2 := by
  apply spending_percent_sum_bound
  · decide
  · decide

/-! ## The id invariant over arbitrary operation sequences (C8) -/

theorem restoredMapMC_mapInv {α : Type} {fid : α → ℕ} (mk : ℕ → α → α)
    (hmk : ∀ k b, fid (mk k b) = k) {del : JSMap ℕ α} {c : ℕ}
    (hinv : mapInv fid del c) (pay : Option (List α)) :
    mapInv fid (restoredMapMC mk del c pay).1 (restoredMapMC mk del c pay).2 := by
  cases pay with
  | none => exact hinv
  | some l => exact createManyMC_mapInv mk hmk hinv l

theorem markAllFold_eq (lst : List Notification) (s : Store) :
    lst.foldl
      (fun st n =>
        if n.read then st
        else { st with notifications := st.notifications.set n.id { n with read := true } })
      s =
    { s with
      notifications :=
        lst.foldl
          (fun m n => if n.read then m else m.set n.id { n with read := true })
          s.notifications } := by
  induction lst generalizing s with
  | nil => rfl
  | cons n lst ih =>
      rw [List.foldl_cons, List.foldl_cons]
      by_cases h : n.read
      · rw [if_pos h, if_pos h, ih]
      · rw [if_neg h, if_neg h, ih]

theorem markAllFold_mapInv (lst : List Notification) (c : ℕ)
    (hids : ∀ n ∈ lst, n.id < c) (m : JSMap ℕ Notification)
    (hinv : mapInv Notification.id m c) :
    mapInv Notification.id
      (lst.foldl (fun m n => if n.read then m else m.set n.id { n with read := true }) m)
      c := by
  induction lst generalizing m with
  | nil => exact hinv
  | cons n lst ih =>
      rw [List.foldl_cons]
      by_cases h : n.read
      · rw [if_pos h]
        exact ih (fun x hx => hids x (List.mem_cons_of_mem _ hx)) m hinv
      · rw [if_neg h]
        exact ih (fun x hx => hids x (List.mem_cons_of_mem _ hx)) _
          (mapInv_set_existing hinv rfl (hids n (List.mem_cons_self ..)))

theorem mapInv_values_id_lt {α : Type} {fid : α → ℕ} {m : JSMap ℕ α} {c : ℕ}
    (hinv : mapInv fid m c) : ∀ v ∈ m.values, fid v < c := by
  intro v hv
  obtain ⟨p, hp, rfl⟩ := List.mem_map.mp hv
  rw [hinv.1 p hp]
  exact hinv.2.1 p hp

/-- The fresh, well-formed store satisfies the invariant. -/
theorem emptyStore_inv : emptyStore.inv := by decide

/-- Every storage operation that does not explicitly overwrite a stored
`id` field through a partial update preserves the store invariant. -/
theorem applyOp_inv (s : Store) (op : Op) (hinv : s.inv) (hop : op.keepsId) :
    (s.applyOp op).inv := by
  obtain ⟨hu, hn, htx, hcat, hinc, hbud, hgoal⟩ := hinv
  cases op with
  | createUser iu now =>
      exact ⟨mapInv_set_fresh hu rfl, hn, htx, hcat, hinc, hbud, hgoal⟩
  | createNotification inm now =>
      exact ⟨hu, mapInv_set_fresh hn rfl, htx, hcat, hinc, hbud, hgoal⟩
  | markNotificationAsRead id =>
      show ((s.markNotificationAsRead id).2).inv
      rw [Store.markNotificationAsRead]
      cases hm : s.notifications.get id with
      | none => exact ⟨hu, hn, htx, hcat, hinc, hbud, hgoal⟩
      | some n =>
          have hmem : (id, n) ∈ s.notifications := JSMap.mem_of_get_eq_some hm
          refine ⟨hu, mapInv_set_existing hn ?_ (hn.2.1 _ hmem), htx, hcat, hinc,
            hbud, hgoal⟩
          exact hn.1 _ hmem
  | markAllNotificationsAsRead userId =>
      show (s.markAllNotificationsAsRead userId).inv
      rw [Store.markAllNotificationsAsRead, markAllFold_eq]
      refine ⟨hu, markAllFold_mapInv _ _ ?_ _ hn, htx, hcat, hinc, hbud, hgoal⟩
      intro n hnmem
      obtain ⟨hval, _⟩ := (mem_getNotifications s userId n).mp hnmem
      exact mapInv_values_id_lt hn n hval
  | createTransaction it now =>
      exact ⟨hu, hn, mapInv_set_fresh htx rfl, hcat, hinc, hbud, hgoal⟩
  | updateTransaction id up =>
      show ((s.updateTransaction id up).2).inv
      rw [Store.updateTransaction]
      cases hm : s.transactions.get id with
      | none => exact ⟨hu, hn, htx, hcat, hinc, hbud, hgoal⟩
      | some t =>
          have hmem : (id, t) ∈ s.transactions := JSMap.mem_of_get_eq_some hm
          refine ⟨hu, hn, mapInv_set_existing htx ?_ (htx.2.1 _ hmem), hcat, hinc,
            hbud, hgoal⟩
          show (applyPartialTransaction t up).id = id
          rw [applyPartialTransaction]
          show up.id.getD t.id = id
          rw [hop]
          exact htx.1 _ hmem
  | deleteTransaction id =>
      exact ⟨hu, hn, mapInv_erase htx id, hcat, hinc, hbud, hgoal⟩
  | createCategory ic now =>
      exact ⟨hu, hn, htx, mapInv_set_fresh hcat rfl, hinc, hbud, hgoal⟩
  | createIncome ii now =>
      exact ⟨hu, hn, htx, hcat, mapInv_set_fresh hinc rfl, hbud, hgoal⟩
  | updateIncome id up =>
      show ((s.updateIncome id up).2).inv
      rw [Store.updateIncome]
      cases hm : s.incomes.get id with
      | none => exact ⟨hu, hn, htx, hcat, hinc, hbud, hgoal⟩
      | some i =>
          have hmem : (id, i) ∈ s.incomes := JSMap.mem_of_get_eq_some hm
          refine ⟨hu, hn, htx, hcat, mapInv_set_existing hinc ?_ (hinc.2.1 _ hmem),
            hbud, hgoal⟩
          show (applyPartialIncome i up).id = id
          rw [applyPartialIncome]
          show up.id.getD i.id = id
          rw [hop]
          exact hinc.1 _ hmem
  | deleteIncome id =>
      exact ⟨hu, hn, htx, hcat, mapInv_erase hinc id, hbud, hgoal⟩
  | createBudget ib =>
      exact ⟨hu, hn, htx, hcat, hinc, mapInv_set_fresh hbud rfl, hgoal⟩
  | updateBudget id up =>
      show ((s.updateBudget id up).2).inv
      rw [Store.updateBudget]
      cases hm : s.budgets.get id with
      | none => exact ⟨hu, hn, htx, hcat, hinc, hbud, hgoal⟩
      | some b =>
          have hmem : (id, b) ∈ s.budgets := JSMap.mem_of_get_eq_some hm
          refine ⟨hu, hn, htx, hcat, hinc,
            mapInv_set_existing hbud ?_ (hbud.2.1 _ hmem), hgoal⟩
          show (applyPartialBudget b up).id = id
          rw [applyPartialBudget]
          show up.id.getD b.id = id
          rw [hop]
          exact hbud.1 _ hmem
  | deleteBudget id =>
      exact ⟨hu, hn, htx, hcat, hinc, mapInv_erase hbud id, hgoal⟩
  | createGoal ig =>
      exact ⟨hu, hn, htx, hcat, hinc, hbud, mapInv_set_fresh hgoal rfl⟩
  | updateGoal id up =>
      show ((s.updateGoal id up).2).inv
      rw [Store.updateGoal]
      cases hm : s.goals.get id with
      | none => exact ⟨hu, hn, htx, hcat, hinc, hbud, hgoal⟩
      | some g =>
          have hmem : (id, g) ∈ s.goals := JSMap.mem_of_get_eq_some hm
          refine ⟨hu, hn, htx, hcat, hinc, hbud,
            mapInv_set_existing hgoal ?_ (hgoal.2.1 _ hmem)⟩
          show (applyPartialGoal g up).id = id
          rw [applyPartialGoal]
          show up.id.getD g.id = id
          rw [hop]
          exact hgoal.1 _ hmem
  | deleteGoal id =>
      exact ⟨hu, hn, htx, hcat, hinc, hbud, mapInv_erase hgoal id⟩
  | restoreBackup userId data now =>
      show (s.restoreBackup userId data now).inv
      rw [restoreBackup_eq]
      exact ⟨hu, hn,
        restoredMapMC_mapInv _ (fun k b => rfl) (mapInv_eraseMany htx _) _,
        restoredMapMC_mapInv _ (fun k b => rfl) (mapInv_eraseMany hcat _) _,
        restoredMapMC_mapInv _ (fun k b => rfl) (mapInv_eraseMany hinc _) _,
        restoredMapMC_mapInv _ (fun k b => rfl) (mapInv_eraseMany hbud _) _,
        restoredMapMC_mapInv _ (fun k b => rfl) (mapInv_eraseMany hgoal _) _⟩

/-- Every store reachable from the constructor by operations whose partial
updates do not set `id` satisfies the invariant. -/
theorem runOps_inv (ops : List Op) (h : ∀ op ∈ ops, op.keepsId) :
    (runOps ops).inv := by
  have key : ∀ (l : List Op) (s : Store), s.inv → (∀ op ∈ l, op.keepsId) →
      (l.foldl Store.applyOp s).inv := by
    intro l
    induction l with
    | nil => exact fun s hs _ => hs
    | cons op l ih =>
        intro s hs hl
        rw [List.foldl_cons]
        exact ih _ (applyOp_inv s op hs (hl op (List.mem_cons_self ..)))
          (fun x hx => hl x (List.mem_cons_of_mem _ hx))
  exact key ops emptyStore emptyStore_inv h

theorem mapInv_values_ids_nodup {α : Type} {fid : α → ℕ} {m : JSMap ℕ α} {c : ℕ}
    (hinv : mapInv fid m c) : (m.values.map fid).Nodup := by
  have hkeys : m.values.map fid = m.keys := by
    show (m.map (fun p => p.2)).map fid = m.map (fun p => p.1)
    rw [List.map_map]
    exact List.map_congr_left (fun p hp => hinv.1 p hp)
  rw [hkeys]
  exact hinv.2.2

/-- C8 (amended): starting from the empty store, along every operation
sequence in which no partial update sets the `id` field, ids within each
entity type stay pairwise distinct and each `create*` call assigns an id
strictly above every existing id of its type.  (Without the id-update
restriction the property fails — see the counterexample.) -/
theorem storage_ids_unique_and_increasing (ops : List Op)
    (h : ∀ op ∈ ops, op.keepsId) :
    (runOps ops).idsDistinct ∧ (runOps ops).createIdsIncrease := by
  obtain ⟨hu, hn, htx, hcat, hinc, hbud, hgoal⟩ := runOps_inv ops h
  constructor
  · exact ⟨mapInv_values_ids_nodup hu, mapInv_values_ids_nodup hn,
      mapInv_values_ids_nodup htx, mapInv_values_ids_nodup hcat,
      mapInv_values_ids_nodup hinc, mapInv_values_ids_nodup hbud,
      mapInv_values_ids_nodup hgoal⟩
  · exact ⟨fun iu now v hv => mapInv_values_id_lt hu v hv,
      fun inm now v hv => mapInv_values_id_lt hn v hv,
      fun it now v hv => mapInv_values_id_lt htx v hv,
      fun ic now v hv => mapInv_values_id_lt hcat v hv,
      fun ii now v hv => mapInv_values_id_lt hinc v hv,
      fun ib v hv => mapInv_values_id_lt hbud v hv,
      fun ig v hv => mapInv_values_id_lt hgoal v hv⟩

/-- C8 counterexample: `updateTransaction(2, { id: 1 })` — a legal
`Partial<Transaction>` — leaves two stored transactions both carrying
id 1, so the uniqueness invariant is NOT preserved by the partial-update
operations. -/
theorem storage_ids_unique_counterexample :
    ¬ (runOps
        [Op.createTransaction
          { userId := 1, amount := 1, category := "c", description := "d"
            date := some 0, type := "expense", recurring := some false
            note := none } 0,
         Op.createTransaction
          { userId := 1, amount := 1, category := "c", description := "d"
            date := some 0, type := "expense", recurring := some false
            note := none } 0,
         Op.updateTransaction 2 { id := some 1 }]).idsDistinct := by
  decide

/-- Witness for C8 at a concrete id-preserving operation sequence. -/
theorem storage_ids_unique_and_increasing_witness :
    (runOps
      [Op.createTransaction
        { userId := 1, amount := 1, category := "c", description := "d"
          date := some 0, type := "expense", recurring := some false
          note := none } 0,
       Op.updateTransaction 1 { amount := some 2 }]).idsDistinct ∧
    (runOps
      [Op.createTransaction
        { userId := 1, amount := 1, category := "c", description := "d"
          date := some 0, type := "expense", recurring := some false
          note := none } 0,
       Op.updateTransaction 1 { amount := some 2 }]).createIdsIncrease := by
  exact storage_ids_unique_and_increasing _ (by decide)

/-! ## The round-trip property (C1) -/

/-- After deleting the user's rows and re-inserting a payload of rows that
all become owned by `u`, the ownership filter returns exactly the
re-inserted rows (projected through any id-independent view `strip`). -/
theorem createManyMC_values_filter_map {α γ : Type} (mk : ℕ → α → α)
    (strip : α → γ) (fown : α → ℕ) (u : ℕ)
    {del : JSMap ℕ α} {c : ℕ} (hlt : keysLt del c)
    (hdel : ∀ v ∈ del.values, fown v ≠ u)
    (hmkown : ∀ k b, fown (mk k b) = u)
    (hproj : ∀ k b, strip (mk k b) = strip (mk 0 b))
    (l : List α) :
    (((createManyMC mk (del, c) l).1.values.filter (fun v => fown v = u)).map strip) =
      l.map (fun b => strip (mk 0 b)) := by
  have hvals := createManyMC_values_map mk (fun v => (fown v, strip v))
    (fun b => (u, strip (mk 0 b)))
    (fun k b => by rw [Prod.mk.injEq]; exact ⟨hmkown k b, hproj k b⟩) hlt l
  have hswap : (((createManyMC mk (del, c) l).1.values.filter
        (fun v => fown v = u)).map strip) =
      ((((createManyMC mk (del, c) l).1.values.map
          (fun v => (fown v, strip v))).filter (fun d => d.1 = u)).map
        (fun d => d.2)) := by
    rw [List.filter_map, List.map_map]
    rfl
  rw [hswap, hvals, List.filter_append]
  have h1 : ((del.values.map (fun v => (fown v, strip v))).filter
      (fun d => d.1 = u)) = [] := by
    rw [List.filter_eq_nil_iff]
    intro d hd
    obtain ⟨v, hv, rfl⟩ := List.mem_map.mp hd
    simpa using hdel v hv
  have h2 : ((l.map (fun b => (u, strip (mk 0 b)))).filter (fun d => d.1 = u)) =
      l.map (fun b => (u, strip (mk 0 b))) := by
    rw [List.filter_eq_self]
    intro d hd
    obtain ⟨b, hb, rfl⟩ := List.mem_map.mp hd
    simp
  rw [h1, h2, List.nil_append, List.map_map]
  rfl

theorem stripId_mkRestoredTransaction (u : ℕ) (k : ℕ) (t : Transaction)
    (hown : t.userId = u) (hrec : t.recurring ≠ none) (hnote : t.note ≠ some "") :
    Transaction.stripId (mkRestoredTransaction u k t) = Transaction.stripId t := by
  have h1 : some (jsOrFalse t.recurring) = t.recurring := by
    cases hr : t.recurring with
    | none => exact absurd hr hrec
    | some bb => rfl
  have h2 : jsOrNull t.note = t.note := by
    cases hn2 : t.note with
    | none => rfl
    | some str =>
        rw [jsOrNull]
        rw [if_neg (fun hh => hnote (by rw [hn2, hh]))]
  simp [Transaction.stripId, mkRestoredTransaction, hown, h1, h2]

theorem stripId_mkRestoredIncome (u : ℕ) (k : ℕ) (i : Income)
    (hown : i.userId = u) (hrec : i.recurring ≠ none) :
    Income.stripId (mkRestoredIncome u k i) = Income.stripId i := by
  have h1 : some (jsOrFalse i.recurring) = i.recurring := by
    cases hr : i.recurring with
    | none => exact absurd hr hrec
    | some bb => rfl
  simp [Income.stripId, mkRestoredIncome, hown, h1]

theorem stripId_mkRestoredBudget (u : ℕ) (k : ℕ) (b : Budget)
    (hown : b.userId = u) :
    Budget.stripId (mkRestoredBudget u k b) = Budget.stripId b := by
  simp [Budget.stripId, mkRestoredBudget, hown]

theorem stripId_mkRestoredGoal (u : ℕ) (k : ℕ) (g : Goal)
    (hown : g.userId = u) :
    Goal.stripId (mkRestoredGoal u k g) = Goal.stripId g := by
  simp [Goal.stripId, mkRestoredGoal, hown]

theorem stripIdDate_mkRestoredCategory (u : ℕ) (now : ℤ) (k : ℕ) (c : Category)
    (hown : c.userId = u) (ht1 : c.type ≠ none) (ht2 : c.type ≠ some "") :
    Category.stripIdDate (mkRestoredCategory u now k c) = Category.stripIdDate c := by
  have h1 : some (jsOrStr c.type "expense") = c.type := by
    cases hty : c.type with
    | none => exact absurd hty ht1
    | some ty =>
        rw [jsOrStr]
        rw [if_neg (fun hh => ht2 (by rw [hty, hh]))]
  simp [Category.stripIdDate, mkRestoredCategory, hown, h1]

theorem values_filter_ne {α : Type} (m : JSMap ℕ α) (f : α → ℕ) (u : ℕ) :
    ∀ v ∈ JSMap.values (m.filter (fun p => f p.2 ≠ u)), f v ≠ u := by
  intro v hv
  obtain ⟨p, hp, rfl⟩ := List.mem_map.mp hv
  have h := List.of_mem_filter hp
  simpa using h

/-- C1 (amended): for a well-formed store whose rows are in the normal
form produced by the store's own create methods, backing up a user and
restoring exactly that backup reproduces the same multiset of
transactions, incomes, budgets and goals ignoring ids — but for
categories only up to their `createdAt` field, which `createCategory`
unconditionally resets to the restore-time clock. -/
theorem backup_restore_roundtrip (s : Store) (u : ℕ) (now : ℤ)
    (hinv : s.inv) (hnorm : s.normalized) :
    ((((s.restoreBackup u (s.createBackup u).toRestoreData now).getTransactions u).map
        Transaction.stripId : Multiset (ℕ × ℚ × String × String × ℤ × String × Option Bool × Option String)) =
      (((s.getTransactions u).map Transaction.stripId : Multiset (ℕ × ℚ × String × String × ℤ × String × Option Bool × Option String)))) ∧
    ((((s.restoreBackup u (s.createBackup u).toRestoreData now).getIncomes u).map
        Income.stripId : Multiset (ℕ × String × ℚ × ℤ × Option Bool)) =
      (((s.getIncomes u).map Income.stripId : Multiset (ℕ × String × ℚ × ℤ × Option Bool)))) ∧
    ((((s.restoreBackup u (s.createBackup u).toRestoreData now).getBudgets u).map
        Budget.stripId : Multiset (ℕ × String × ℚ × String)) =
      (((s.getBudgets u).map Budget.stripId : Multiset (ℕ × String × ℚ × String)))) ∧
    ((((s.restoreBackup u (s.createBackup u).toRestoreData now).getGoals u).map
        Goal.stripId : Multiset (ℕ × String × ℚ × ℚ × Option ℤ)) =
      (((s.getGoals u).map Goal.stripId : Multiset (ℕ × String × ℚ × ℚ × Option ℤ)))) ∧
    ((((s.restoreBackup u (s.createBackup u).toRestoreData now).getCategories u).map
        Category.stripIdDate : Multiset (ℕ × String × Option String)) =
      (((s.getCategories u).map Category.stripIdDate : Multiset (ℕ × String × Option String)))) := by
  obtain ⟨hu, hn, htx, hcat, hinc, hbud, hgoal⟩ := hinv
  obtain ⟨hnormTx, hnormInc, hnormCat⟩ := hnorm
  have hdelTx : s.transactions.eraseMany ((s.getTransactions u).map (·.id)) =
      s.transactions.filter (fun p => p.2.userId ≠ u) :=
    eraseMany_userRows _ (fun t => t.userId) htx u _ (mem_getTransactions s u)
  have hdelInc : s.incomes.eraseMany ((s.getIncomes u).map (·.id)) =
      s.incomes.filter (fun p => p.2.userId ≠ u) :=
    eraseMany_userRows _ (fun i => i.userId) hinc u _ (mem_getIncomes s u)
  have hdelBud : s.budgets.eraseMany ((s.getBudgets u).map (·.id)) =
      s.budgets.filter (fun p => p.2.userId ≠ u) :=
    eraseMany_userRows _ (fun b => b.userId) hbud u _ (mem_getBudgets s u)
  have hdelGoal : s.goals.eraseMany ((s.getGoals u).map (·.id)) =
      s.goals.filter (fun p => p.2.userId ≠ u) :=
    eraseMany_userRows _ (fun g => g.userId) hgoal u _ (mem_getGoals s u)
  have hdelCat : s.categories.eraseMany ((s.getCategories u).map (·.id)) =
      s.categories.filter (fun p => p.2.userId ≠ u) :=
    eraseMany_userRows _ (fun c => c.userId) hcat u _ (mem_getCategories s u)
  rw [restoreBackup_eq]
  simp only [Backup.toRestoreData, Store.createBackup, restoredMapMC]
  simp only [hdelTx, hdelInc, hdelBud, hdelGoal, hdelCat]
  simp only [Store.getTransactions, Store.getIncomes, Store.getBudgets,
    Store.getGoals, Store.getCategories]
  refine ⟨?_, ?_, ?_, ?_, ?_⟩
  · refine Multiset.coe_eq_coe.mpr ?_
    have hmain := createManyMC_values_filter_map (mkRestoredTransaction u)
      Transaction.stripId (fun t => t.userId) u
      (fun q hq => htx.2.1 q (List.mem_of_mem_filter hq))
      (values_filter_ne s.transactions (fun t => t.userId) u)
      (fun k b => rfl) (fun k b => rfl)
      ((s.transactions.values.filter (fun t => t.userId = u)).insertionSort
        (fun a b => b.date ≤ a.date))
    have hcongr : ((s.transactions.values.filter
          (fun t => t.userId = u)).insertionSort (fun a b => b.date ≤ a.date)).map
        (fun b => Transaction.stripId (mkRestoredTransaction u 0 b)) =
        ((s.transactions.values.filter
          (fun t => t.userId = u)).insertionSort (fun a b => b.date ≤ a.date)).map
        Transaction.stripId := by
      apply List.map_congr_left
      intro t ht
      rw [List.mem_insertionSort] at ht
      have hown : t.userId = u := by simpa using List.of_mem_filter ht
      obtain ⟨p, hp, rfl⟩ := List.mem_map.mp (List.mem_of_mem_filter ht)
      exact stripId_mkRestoredTransaction u 0 p.2 hown (hnormTx p hp).1
        (hnormTx p hp).2
    exact ((List.perm_insertionSort _ _).map _).trans (by rw [hmain, hcongr])
  · refine Multiset.coe_eq_coe.mpr ?_
    have hmain := createManyMC_values_filter_map (mkRestoredIncome u)
      Income.stripId (fun i => i.userId) u
      (fun q hq => hinc.2.1 q (List.mem_of_mem_filter hq))
      (values_filter_ne s.incomes (fun i => i.userId) u)
      (fun k b => rfl) (fun k b => rfl)
      ((s.incomes.values.filter (fun i => i.userId = u)).insertionSort
        (fun a b => b.date ≤ a.date))
    have hcongr : ((s.incomes.values.filter
          (fun i => i.userId = u)).insertionSort (fun a b => b.date ≤ a.date)).map
        (fun b => Income.stripId (mkRestoredIncome u 0 b)) =
        ((s.incomes.values.filter
          (fun i => i.userId = u)).insertionSort (fun a b => b.date ≤ a.date)).map
        Income.stripId := by
      apply List.map_congr_left
      intro i hi
      rw [List.mem_insertionSort] at hi
      have hown : i.userId = u := by simpa using List.of_mem_filter hi
      obtain ⟨p, hp, rfl⟩ := List.mem_map.mp (List.mem_of_mem_filter hi)
      exact stripId_mkRestoredIncome u 0 p.2 hown (hnormInc p hp)
    exact ((List.perm_insertionSort _ _).map _).trans (by rw [hmain, hcongr])
  · have hmain := createManyMC_values_filter_map (mkRestoredBudget u)
      Budget.stripId (fun b => b.userId) u
      (fun q hq => hbud.2.1 q (List.mem_of_mem_filter hq))
      (values_filter_ne s.budgets (fun b => b.userId) u)
      (fun k b => rfl) (fun k b => rfl)
      (s.budgets.values.filter (fun b => b.userId = u))
    have hcongr : (s.budgets.values.filter (fun b => b.userId = u)).map
        (fun b => Budget.stripId (mkRestoredBudget u 0 b)) =
        (s.budgets.values.filter (fun b => b.userId = u)).map Budget.stripId := by
      apply List.map_congr_left
      intro b hb
      have hown : b.userId = u := by simpa using List.of_mem_filter hb
      exact stripId_mkRestoredBudget u 0 b hown
    rw [hmain, hcongr]
  · have hmain := createManyMC_values_filter_map (mkRestoredGoal u)
      Goal.stripId (fun g => g.userId) u
      (fun q hq => hgoal.2.1 q (List.mem_of_mem_filter hq))
      (values_filter_ne s.goals (fun g => g.userId) u)
      (fun k b => rfl) (fun k b => rfl)
      (s.goals.values.filter (fun g => g.userId = u))
    have hcongr : (s.goals.values.filter (fun g => g.userId = u)).map
        (fun b => Goal.stripId (mkRestoredGoal u 0 b)) =
        (s.goals.values.filter (fun g => g.userId = u)).map Goal.stripId := by
      apply List.map_congr_left
      intro g hg
      have hown : g.userId = u := by simpa using List.of_mem_filter hg
      exact stripId_mkRestoredGoal u 0 g hown
    rw [hmain, hcongr]
  · have hmain := createManyMC_values_filter_map (mkRestoredCategory u now)
      Category.stripIdDate (fun c => c.userId) u
      (fun q hq => hcat.2.1 q (List.mem_of_mem_filter hq))
      (values_filter_ne s.categories (fun c => c.userId) u)
      (fun k b => rfl) (fun k b => rfl)
      (s.categories.values.filter (fun c => c.userId = u))
    have hcongr : (s.categories.values.filter (fun c => c.userId = u)).map
        (fun b => Category.stripIdDate (mkRestoredCategory u now 0 b)) =
        (s.categories.values.filter (fun c => c.userId = u)).map
          Category.stripIdDate := by
      apply List.map_congr_left
      intro c hc
      have hown : c.userId = u := by simpa using List.of_mem_filter hc
      obtain ⟨p, hp, rfl⟩ := List.mem_map.mp (List.mem_of_mem_filter hc)
      exact stripIdDate_mkRestoredCategory u now 0 p.2 hown (hnormCat p hp).1
        (hnormCat p hp).2
    rw [hmain, hcongr]

/-- C1 counterexample: a category backed up with `createdAt = 0` and
restored at clock `1` comes back with `createdAt = 1`, so the multiset of
categories (ignoring only ids) is not preserved by a backup/restore
round trip. -/
theorem backup_restore_roundtrip_counterexample :
    ¬ (((((({ emptyStore with
              categories :=
                [(1, { id := 1, userId := 1, name := "Food"
                       type := some "expense", createdAt := 0 })]
              currentCategoryId := 2 } : Store)).restoreBackup 1
            ((({ emptyStore with
                 categories :=
                   [(1, { id := 1, userId := 1, name := "Food"
                          type := some "expense", createdAt := 0 })]
                 currentCategoryId := 2 } : Store)).createBackup 1).toRestoreData
            1).getCategories 1).map Category.stripId :
          Multiset (ℕ × String × Option String × ℤ)) =
        ((((({ emptyStore with
               categories :=
                 [(1, { id := 1, userId := 1, name := "Food"
                        type := some "expense", createdAt := 0 })]
               currentCategoryId := 2 } : Store)).getCategories 1).map
            Category.stripId : Multiset (ℕ × String × Option String × ℤ)))) := by
  decide

/-- Witness for C1 (amended) at a concrete well-formed, normalized
store. -/
theorem backup_restore_roundtrip_witness :
    ((((({ emptyStore with
           categories :=
             [(1, { id := 1, userId := 1, name := "Food"
                    type := some "expense", createdAt := 0 })]
           currentCategoryId := 2 } : Store)).restoreBackup 1
          ((({ emptyStore with
               categories :=
                 [(1, { id := 1, userId := 1, name := "Food"
                        type := some "expense", createdAt := 0 })]
               currentCategoryId := 2 } : Store)).createBackup 1).toRestoreData
          5).getCategories 1).map Category.stripIdDate :
        Multiset (ℕ × String × Option String)) =
      ((((({ emptyStore with
             categories :=
               [(1, { id := 1, userId := 1, name := "Food"
                      type := some "expense", createdAt := 0 })]
             currentCategoryId := 2 } : Store)).getCategories 1).map
          Category.stripIdDate : Multiset (ℕ × String × Option String))) := by
  exact (backup_restore_roundtrip
    ({ emptyStore with
       categories :=
         [(1, { id := 1, userId := 1, name := "Food"
                type := some "expense", createdAt := 0 })]
       currentCategoryId := 2 } : Store) 1 5 (by decide) (by decide)).2.2.2.2
